import Mathlib

/-
Verification development for the Chemputer control software (platform_server).

Each section embeds a portion of the Python source as executable Lean
definitions (volumes and temperatures are modelled as rationals, node names
as an arbitrary type with decidable equality or as strings), and proves or
refutes the frozen specification claims about them.  Device I/O calls
(valve switching, pump actuation, serial writes, logging, sleeping) have no
effect on the modelled state and are therefore not represented; everything
that reads or writes the modelled state follows the Python statement order.

Layout: all definitions first (namespace Chemputer), then all theorems.
-/

set_option maxHeartbeats 1000000

namespace Chemputer

/- ------------------------------------------------------------------ -/
/- Volume bookkeeping: PumpExecutioner.update_node_volumes
   (tools/module_execution/pump_execution.py, lines 114-146).

   The graph state relevant to volume bookkeeping: per-node current volume
   plus the PARENT_FLASK / ASSOCIATED_FLASK back-references established by
   Setup.setup_special_devices (tools/chempiler_setup.py, lines 390-403).  -/

structure VolGraph (ν : Type) where
  currentVolume : ν → ℚ
  parentFlask : ν → Option ν
  associatedFlask : ν → Option ν

variable {ν : Type} [DecidableEq ν]

/-- Assignment `self.graph.node[n][CURRENT_VOLUME] = q`. -/
def setCV (g : VolGraph ν) (n : ν) (q : ℚ) : VolGraph ν :=
  { g with currentVolume := fun x => if x = n then q else g.currentVolume x }

/-- The source half of the flask redirection in
`PumpExecutioner.update_node_volumes`: the (already decremented) source
volume is copied to the source's parent flask if one is recorded ("if the
source is a bottom of something"), else to its associated flask if one is
recorded ("if the source is a top of something"), else nothing happens. -/
def flaskCopy (g : VolGraph ν) (source : ν) : VolGraph ν :=
  match g.parentFlask source with
  | some parent => setCV g parent (g.currentVolume source)
  | none =>
    match g.associatedFlask source with
    | some assoc => setCV g assoc (g.currentVolume source)
    | none => g

/-- The target half of the flask redirection in
`PumpExecutioner.update_node_volumes`: the target's parent flask (checked
first) or associated flask is incremented by the moved volume. -/
def flaskAdd (g : VolGraph ν) (target : ν) (volume : ℚ) : VolGraph ν :=
  match g.parentFlask target with
  | some parent => setCV g parent (g.currentVolume parent + volume)
  | none =>
    match g.associatedFlask target with
    | some assoc => setCV g assoc (g.currentVolume assoc + volume)
    | none => g

/-- First half of `PumpExecutioner.update_node_volumes` ("deal with source
node first"): the source volume is decremented and clamped at zero ("can't
be emptier than empty"), then copied to its paired flask. -/
def sourcePhase (g : VolGraph ν) (source : ν) (volume : ℚ) : VolGraph ν :=
  flaskCopy
    (setCV g source
      (if g.currentVolume source - volume < 0 then 0
       else g.currentVolume source - volume))
    source

/-- Second half of `PumpExecutioner.update_node_volumes` ("then deal with
target node"): the target volume is incremented by the moved volume, then
its paired flask is incremented by the same amount. -/
def targetPhase (g : VolGraph ν) (target : ν) (volume : ℚ) : VolGraph ν :=
  flaskAdd (setCV g target (g.currentVolume target + volume)) target volume

/-- `PumpExecutioner.update_node_volumes(source, target, volume)`: the source
node is dealt with first, then the target node. -/
def update_node_volumes (g : VolGraph ν) (source target : ν) (volume : ℚ) :
    VolGraph ν :=
  targetPhase (sourcePhase g source volume) target volume

/-- Concrete two-vessel graph for the C2 counterexample: `flask1` holds 1 mL,
`flask2` is empty, no special-device links. -/
def c2Graph : VolGraph String :=
  { currentVolume := fun n => if n = "flask1" then 1 else 0
    parentFlask := fun _ => none
    associatedFlask := fun _ => none }

/-- Concrete graph for the C7 witness: a filter (special device) paired with
its bottom flask, both holding 3 mL, plus a plain waste flask. -/
def c7Graph : VolGraph String :=
  { currentVolume := fun n =>
      if n = "filter" then 3 else if n = "filter_bottom" then 3 else 0
    parentFlask := fun n =>
      if n = "filter_bottom" then some "filter" else none
    associatedFlask := fun n =>
      if n = "filter" then some "filter_bottom" else none }

/- ------------------------------------------------------------------ -/
/- Camera: CameraExecutioner.change_recording_speed
   (tools/module_execution/camera_execution.py, lines 39-50). -/

structure LogRecord where
  level : ℕ
  msg : ℚ
deriving DecidableEq

/-- `CameraExecutioner.change_recording_speed`: logs the requested speed at
level 5 when it is at least 1, otherwise does nothing (`pass`).  `none`
models the absence of any log event or state change. -/
def change_recording_speed (recording_speed : ℚ) : Option LogRecord :=
  if recording_speed ≥ 1 then some ⟨5, recording_speed⟩ else none

/- ------------------------------------------------------------------ -/
/- Device actor: the `command` decorator
   (modules/serial_labware/SerialDevice/serial_labware.py, lines 36-57).

   `SerialDevice.__init__` records `self.current_thread = threading.get_ident()`
   -- the identity of the thread that CREATED the instance.  The worker
   thread is spawned later by `launch_command_handler`, so its identity
   differs from `current_thread`.  The decorator compares the calling
   thread's identity against `current_thread`. -/

inductive CallPath
  | enqueue  -- put [func, args, kwargs] on command_queue, spin on reply_queue
  | direct   -- run func(*args, **kwargs) on the calling thread
deriving DecidableEq

/-- The dispatch decision of the `command` decorator's wrapper: the command
is enqueued exactly when `threading.get_ident()` equals the identity stored
at `__init__` time, and executed directly otherwise. -/
def command_dispatch (callerThread instanceThread : ℕ) : CallPath :=
  if callerThread = instanceThread then CallPath.enqueue else CallPath.direct

/- ------------------------------------------------------------------ -/
/- Script compiler: p_function, macro call expansion
   (tools/parsing/ChASM_parser.py, lines 139-163).

   An instruction is a list of tokens (strings).  A macro call substitutes
   actual arguments for formal parameters via `arg_mapper = dict(zip(...))`.
   The guard `if len(arg_list) != len(required_args): p[0] = []` assigns but
   does not return, and `p[0] = body` at the end of the function overwrites
   it unconditionally, so the final value of `p[0]` is always the
   substituted body (or a KeyError escapes if a parameter without a matched
   actual occurs in the body). -/

/-- Python `dict` built by `dict(zip(keys, values))`: on duplicate keys the
last binding wins, and `d[k]` on a missing key raises `KeyError`. -/
def dict_zip_get (keys values : List String) (k : String) : Option String :=
  ((keys.zip values).reverse).lookup k

/-- Final result of `p_function` for a call of macro `func_name` whose
stored definition is `(required_args, body)`, with actual arguments
`arg_list`: every token of the (deep-copied) body that is a formal
parameter is replaced through `arg_mapper`; a parameter missing from
`arg_mapper` raises `KeyError`.  The mismatch guard's `p[0] = []` is dead:
`p[0] = body` follows unconditionally. -/
def p_function (required_args arg_list : List String) (body : List (List String)) :
    Except String (List (List String)) :=
  body.mapM fun instruction =>
    instruction.mapM fun s =>
      if s ∈ required_args then
        match dict_zip_get required_args arg_list s with
        | some v => Except.ok v
        | none => Except.error "KeyError"
      else Except.ok s

/- ------------------------------------------------------------------ -/
/- Single-valve transfer: PumpExecutioner.move_single_valve
   (tools/module_execution/pump_execution.py, lines 243-297). -/

/-- The per-cycle aspirated volume of `move_single_valve`: the pump's
maximum syringe volume if more than that remains, otherwise the
remainder. -/
def vol_to_pump (maxVolume volume : ℚ) : ℚ :=
  if volume > maxVolume then maxVolume else volume

/-- The `while volume > EMPTY` loop of `move_single_valve` (EMPTY = 0),
returning the list of per-cycle aspirated volumes in order.  Each iteration
aspirates `vol_to_pump`, dispenses it to the destination, decrements the
remaining volume by the pumped amount and clamps it at zero.  `fuel` bounds
the number of iterations so that the function is total; any fuel at least
the actual number of cycles yields the loop's result. -/
def move_single_valve_cycles (fuel : ℕ) (maxVolume volume : ℚ) : List ℚ :=
  match fuel with
  | 0 => []
  | fuel + 1 =>
    if volume > 0 then
      vol_to_pump maxVolume volume ::
        move_single_valve_cycles fuel maxVolume
          (if volume - vol_to_pump maxVolume volume < 0 then 0
           else volume - vol_to_pump maxVolume volume)
    else []

/- ------------------------------------------------------------------ -/
/- Instruction dispatcher: Executioner.execute and
   Executioner.join_parallel_operations (tools/cmd_execution.py,
   lines 73-112).

   A command carries its mode (cmd[0] is SEQUENTIAL or PARALLEL) and an
   abstract task payload.  Observable events: a Parallel command's thread is
   started and recorded in thread_pool (`spawned`); `thread.join()` returns,
   i.e. a background task has finished (`completed`); a Sequential command's
   handler runs inline (`executed`).  A joined thread's task is complete
   before `join` returns, so `completed` events model the barrier. -/

inductive Mode
  | Sequential
  | Parallel
deriving DecidableEq

inductive DispatchEvent (τ : Type)
  | spawned (t : τ)
  | completed (t : τ)
  | executed (t : τ)
deriving DecidableEq

/-- One `Executioner.execute(cmd)` step over the in-flight thread pool: a
Sequential command first calls `join_parallel_operations` — joining every
thread in `thread_pool` and setting `thread_pool = []` — and then runs its
handler inline; a Parallel command starts a background thread and appends it
to `thread_pool`, returning immediately. -/
def executeStep {τ : Type} (pool : List τ) (cmd : Mode × τ) :
    List τ × List (DispatchEvent τ) :=
  match cmd.1 with
  | Mode.Sequential =>
    ([], pool.map DispatchEvent.completed ++ [DispatchEvent.executed cmd.2])
  | Mode.Parallel => (pool ++ [cmd.2], [DispatchEvent.spawned cmd.2])

/-- The dispatch loop (`Chempiler.run_platform` popping commands in program
order into `Executioner.execute`), threading the in-flight pool and
concatenating the observable events. -/
def executeAll {τ : Type} : List τ → List (Mode × τ) → List (DispatchEvent τ)
  | _, [] => []
  | pool, cmd :: rest =>
    (executeStep pool cmd).2 ++ executeAll (executeStep pool cmd).1 rest

/- ------------------------------------------------------------------ -/
/- Wait-for-setpoint loops: StirrerExecutioner.wait_for_temp
   (tools/module_execution/stirrer_execution.py, lines 67-87),
   ChillerExecutioner.wait_for_temp (chiller_execution.py, lines 144-164),
   RotavapExecutioner.wait_for_temp (rotavap_execution.py, lines 78-104).

   Process-value readings are modelled as a stream r : ℕ → ℚ, one fresh
   reading per loop test (the direction test of the stirrer's and chiller's
   if/elif shares reading 0; readings made purely for log messages are not
   indexed).  `sleep(5)` separates consecutive readings; there is no
   timeout, so a loop whose exit test never passes runs forever (`none` for
   every fuel). -/

/-- The 5-second polling interval (`sleep(5)`) common to the three loops. -/
def pollIntervalSeconds : ℕ := 5

/-- Exit test of the chiller's wait loop: both directions run
`while abs(pv - sp) > COOLING_THRESHOLD`, with COOLING_THRESHOLD = 0.5. -/
def chillerExitTest (sp : ℚ) : ℚ → Bool :=
  fun pv => !(decide (|pv - sp| > 1/2))

/-- Exit test of the rotavap's wait loop: `while True`, breaking unless
`pv < sp - TEMP_WINDOW` or `pv > sp + TEMP_WINDOW`, with TEMP_WINDOW =
0.5. -/
def rotavapExitTest (sp : ℚ) : ℚ → Bool :=
  fun pv => !(decide (pv < sp - 1/2)) && !(decide (pv > sp + 1/2))

/-- A polling loop over the reading stream: returns the index of the first
reading at or after `k` that passes the exit test, polling every 5 seconds;
`fuel` bounds the modelled unrolling, `none` meaning the loop is still
running after `fuel` polls (there is no timeout). -/
def pollLoop (fuel : ℕ) (exitTest : ℚ → Bool) (r : ℕ → ℚ) (k : ℕ) :
    Option ℕ :=
  match fuel with
  | 0 => none
  | fuel + 1 =>
    if exitTest (r k) then some k else pollLoop fuel exitTest r (k + 1)

/-- `StirrerExecutioner.wait_for_temp`: reading 0 selects the approach
direction; if it equals the setpoint neither loop is entered, else the
chosen `while` polls from reading 1 on. -/
def stirrer_wait_for_temp (fuel : ℕ) (sp : ℚ) (r : ℕ → ℚ) : Option ℕ :=
  if r 0 < sp then pollLoop fuel (fun pv => !(decide (pv < sp))) r 1
  else if r 0 > sp then pollLoop fuel (fun pv => !(decide (pv > sp))) r 1
  else some 0

/-- `ChillerExecutioner.wait_for_temp`: reading 0 selects the approach
direction; if it equals the setpoint neither loop is entered, else the
threshold `while` polls from reading 1 on. -/
def chiller_wait_for_temp (fuel : ℕ) (sp : ℚ) (r : ℕ → ℚ) : Option ℕ :=
  if r 0 < sp then pollLoop fuel (chillerExitTest sp) r 1
  else if r 0 > sp then pollLoop fuel (chillerExitTest sp) r 1
  else some 0

/-- `RotavapExecutioner.wait_for_temp`: an unconditional `while True` that
breaks at the first reading inside the temperature window. -/
def rotavap_wait_for_temp (fuel : ℕ) (sp : ℚ) (r : ℕ → ℚ) : Option ℕ :=
  pollLoop fuel (rotavapExitTest sp) r 0

/-- Reading stream for the C8 counterexample: 20 °C, then 80 °C forever. -/
def c8Readings : ℕ → ℚ := fun k => if k = 0 then 20 else 80

/-- Reading stream for the C8 witness: 20 °C, then 50 °C forever. -/
def c8WitnessReadings : ℕ → ℚ := fun k => if k = 0 then 20 else 50

/-- Reading stream stuck at 100 °C (for the no-timeout part of C8). -/
def c8StuckReadings : ℕ → ℚ := fun _ => 100

/- ------------------------------------------------------------------ -/
/- Run controller snapshot: Chempiler.run_platform, Chempiler.dump_graph
   and Chempiler.rebuild_graph (core/chempiler.py, lines 71-120).

   A graph is an association list from node id to node data (class name
   plus an attribute dictionary of numeric values); the snapshot maps node
   ids to restricted attribute dictionaries.  CRASH_DUMP_KEYS =
   ["current_volume"]. -/

structure GNode where
  className : String
  attrs : List (String × ℚ)
deriving DecidableEq

def crash_dump_keys : List String := ["current_volume"]

/-- `Chempiler.dump_graph`: every node whose class is not `chemputer_pump`
and not `chemputer_valve` (those two are skipped by `continue`) is
serialized to its attribute dictionary restricted to CRASH_DUMP_KEYS,
keyed by node id. -/
def dump_graph (g : List (String × GNode)) :
    List (String × List (String × ℚ)) :=
  (g.filter fun p =>
      !(p.2.className == "chemputer_pump" ||
        p.2.className == "chemputer_valve")).map
    fun p => (p.1, p.2.attrs.filter fun kv => crash_dump_keys.contains kv.1)

/-- One node's attribute update in `Chempiler.rebuild_graph`: for every key
of the live node, a saved value under the same key overwrites it only when
the saved value is truthy (`saved_value = saved_node.get(key)` followed by
`if saved_value:` — an absent key and a saved value of 0 both fail the
test). -/
def rebuild_node (saved : List (String × ℚ)) (node : GNode) : GNode :=
  { node with attrs := node.attrs.map fun kv =>
      match saved.lookup kv.1 with
      | some v => if v ≠ 0 then (kv.1, v) else kv
      | none => kv }

/-- `Chempiler.rebuild_graph`: for every node of the freshly loaded graph,
if the crash dump holds a truthy (nonempty) entry for its id the node's
attributes are overwritten key by key from it; `if not saved_node:
continue` skips ids without an entry and ids whose entry is the empty
dictionary. -/
def rebuild_graph (dump : List (String × List (String × ℚ)))
    (g : List (String × GNode)) : List (String × GNode) :=
  g.map fun p =>
    match dump.lookup p.1 with
    | some saved => if saved = [] then p else (p.1, rebuild_node saved p.2)
    | none => p

/-- Graph for the C9 counterexample: one flask whose live volume is 5 mL. -/
def c9Graph : List (String × GNode) :=
  [("flask1", ⟨"flask", [("current_volume", 5)]⟩)]

/-- Snapshot for the C9 counterexample: the flask's volume was saved as
0 mL. -/
def c9Dump : List (String × List (String × ℚ)) :=
  [("flask1", [("current_volume", 0)])]

/-- Graph for the C9 witness: a flask holding 5 mL and a pump node. -/
def c9WitnessGraph : List (String × GNode) :=
  [("flask1", ⟨"flask", [("current_volume", 5)]⟩),
   ("pump1", ⟨"chemputer_pump", [("current_volume", 2)]⟩)]

/- ------------------------------------------------------------------ -/
/- Multi-valve bucket-brigade transfer: PumpExecutioner.move_multiple_valves
   (tools/module_execution/pump_execution.py, lines 299-422).

   State per beat i: the remaining source volume and the list of the pumps'
   CURRENT_VOLUME attributes along the chain (stage j = pumps[j]).  Valve
   switching (the (i % 2) xor (j % 2) checkerboard of positions) is device
   I/O with no effect on the volume state and is not represented.  The
   pumps are driven in reverse chain order precisely so that every stage
   reads its predecessor's pre-beat volume, making the beat a function of
   the pre-beat state. -/

/-- `minimal_pump_volume`: the accumulation loop
`if not minimal_pump_volume: take it; elif smaller: take it` over the
pumps' MAX_VOLUME attributes (`None` and a stored 0.0 are both falsy). -/
def minimal_pump_volume (caps : List ℚ) : Option ℚ :=
  caps.foldl
    (fun acc c =>
      match acc with
      | none => some c
      | some a => if a = 0 then some c else if c < a then some c else some a)
    none

/-- `volume_to_pump`, the slug aspirated by stage 0 on an even beat: the
remaining volume, capped by the smallest syringe in the chain. -/
def volume_to_pump (m vol : ℚ) : ℚ := if vol > m then m else vol

/-- New CURRENT_VOLUME of pump j after beat i, reading pre-beat values:
stage 0 aspirates `volume_to_pump` on even beats (the node update is
skipped when the aspirated volume is 0, `if volume_to_pump != 0`) and
moves to EMPTY on odd beats; a later stage j moves to EMPTY when
`(i % 2) xor (j % 2)` holds, else it moves to its predecessor's pre-beat
volume (no move when the predecessor is empty). -/
def beat_pump (m : ℚ) (i : ℕ) (vol : ℚ) (ps : List ℚ) (j : ℕ) : ℚ :=
  if j = 0 then
    if i % 2 = 0 then
      if volume_to_pump m vol ≠ 0 then volume_to_pump m vol else ps.getD 0 0
    else 0
  else if Bool.xor (i % 2 == 1) (j % 2 == 1) then 0
  else if ps.getD (j - 1) 0 ≠ 0 then ps.getD (j - 1) 0 else ps.getD j 0

/-- All pump volumes after beat i. -/
def beat_pumps (m : ℚ) (i : ℕ) (vol : ℚ) (ps : List ℚ) : List ℚ :=
  (List.range ps.length).map (beat_pump m i vol ps)

/-- Remaining source volume after beat i: decremented by `volume_to_pump`
on even beats (`volume -= volume_to_pump`), unchanged on odd beats. -/
def beat_vol (m : ℚ) (i : ℕ) (vol : ℚ) : ℚ :=
  if i % 2 = 0 then vol - volume_to_pump m vol else vol

/-- Volume dispensed to the destination during beat i: the last pump of a
chain of length at least 2 moves to EMPTY at `dispense_speed` when
`(i % 2) xor ((N-1) % 2)` holds, releasing its pre-beat volume. -/
def beat_dispensed (i : ℕ) (ps : List ℚ) : ℚ :=
  if 2 ≤ ps.length ∧ Bool.xor (i % 2 == 1) ((ps.length - 1) % 2 == 1) then
    ps.getD (ps.length - 1) 0
  else 0

/-- The `busy` check ending a beat: Python truthiness of each pump's
CURRENT_VOLUME (`if self.graph.node[pump][CURRENT_VOLUME]`) and of the
remaining volume (`if volume`), i.e. nonzero. -/
def brigade_busy (vol : ℚ) (ps : List ℚ) : Bool :=
  ps.any (fun x => decide (x ≠ 0)) || decide (vol ≠ 0)

/-- The `while True` beat loop of `move_multiple_valves`: perform a beat,
accumulate what the last stage dispensed to the destination, and break when
no pump in the chain holds residual volume and no source volume remains
(`if not busy: break`).  Returns (index after the last beat, final volume,
final pump volumes, total dispensed); `none` when the fuel bound is
exhausted before the loop breaks. -/
def brigade_run (m : ℚ) : ℕ → ℕ → ℚ → List ℚ → ℚ →
    Option (ℕ × ℚ × List ℚ × ℚ)
  | 0, _, _, _, _ => none
  | fuel + 1, i, vol, ps, out =>
    if brigade_busy (beat_vol m i vol) (beat_pumps m i vol ps) then
      brigade_run m fuel (i + 1) (beat_vol m i vol) (beat_pumps m i vol ps)
        (out + beat_dispensed i ps)
    else some (i + 1, beat_vol m i vol, beat_pumps m i vol ps,
      out + beat_dispensed i ps)

/-- The invariant of the beat loop from an all-empty chain: the remaining
volume is nonnegative and a pump holds fluid only at chain positions of the
moving parity class ((i + j) odd) -- the checkerboard pattern advancing one
stage per beat. -/
def BrigadeInv (i : ℕ) (vol : ℚ) (ps : List ℚ) : Prop :=
  0 ≤ vol ∧ ∀ j < ps.length, ps.getD j 0 ≠ 0 → (i + j) % 2 = 1

/-- Weighted count of loaded stages: a slug at position j still needs
(length - j) hops to leave the chain. -/
def slug_sum : List ℚ → ℕ
  | [] => 0
  | x :: xs => (if x ≠ 0 then xs.length + 1 else 0) + slug_sum xs

/-- Termination measure of the beat loop: remaining aspirations (weighted
by a full drain of the chain), plus the weighted count of loaded stages,
plus one for an odd beat that must pass before the next aspiration. -/
def brigade_measure (m : ℚ) (i : ℕ) (vol : ℚ) (ps : List ℚ) : ℕ :=
  4 * ps.length * (⌈vol / m⌉).toNat + 2 * slug_sum ps +
    (if i % 2 = 1 ∧ 0 < vol then 1 else 0)

end Chemputer

open Chemputer

variable {ν : Type} [DecidableEq ν]

/- ------------------------------------------------------------------ -/
/- Helper lemmas for the volume bookkeeping state. -/

@[simp] theorem setCV_currentVolume (g : VolGraph ν) (n : ν) (q : ℚ) (x : ν) :
    (setCV g n q).currentVolume x = if x = n then q else g.currentVolume x := rfl

@[simp] theorem setCV_parentFlask (g : VolGraph ν) (n : ν) (q : ℚ) :
    (setCV g n q).parentFlask = g.parentFlask := rfl

@[simp] theorem setCV_associatedFlask (g : VolGraph ν) (n : ν) (q : ℚ) :
    (setCV g n q).associatedFlask = g.associatedFlask := rfl

theorem flaskCopy_of_parent {g : VolGraph ν} {s p : ν}
    (h : g.parentFlask s = some p) :
    flaskCopy g s = setCV g p (g.currentVolume s) := by
  unfold flaskCopy; rw [h]

theorem flaskCopy_of_assoc {g : VolGraph ν} {s a : ν}
    (hp : g.parentFlask s = none) (ha : g.associatedFlask s = some a) :
    flaskCopy g s = setCV g a (g.currentVolume s) := by
  unfold flaskCopy; rw [hp, ha]

theorem flaskCopy_of_none {g : VolGraph ν} {s : ν}
    (hp : g.parentFlask s = none) (ha : g.associatedFlask s = none) :
    flaskCopy g s = g := by
  unfold flaskCopy; rw [hp, ha]

theorem flaskAdd_of_parent {g : VolGraph ν} {t p : ν} {v : ℚ}
    (h : g.parentFlask t = some p) :
    flaskAdd g t v = setCV g p (g.currentVolume p + v) := by
  unfold flaskAdd; rw [h]

theorem flaskAdd_of_assoc {g : VolGraph ν} {t a : ν} {v : ℚ}
    (hp : g.parentFlask t = none) (ha : g.associatedFlask t = some a) :
    flaskAdd g t v = setCV g a (g.currentVolume a + v) := by
  unfold flaskAdd; rw [hp, ha]

theorem flaskAdd_of_none {g : VolGraph ν} {t : ν} {v : ℚ}
    (hp : g.parentFlask t = none) (ha : g.associatedFlask t = none) :
    flaskAdd g t v = g := by
  unfold flaskAdd; rw [hp, ha]

theorem flaskCopy_parentFlask (g : VolGraph ν) (s : ν) :
    (flaskCopy g s).parentFlask = g.parentFlask := by
  unfold flaskCopy
  split
  · rfl
  · split <;> rfl

theorem flaskCopy_associatedFlask (g : VolGraph ν) (s : ν) :
    (flaskCopy g s).associatedFlask = g.associatedFlask := by
  unfold flaskCopy
  split
  · rfl
  · split <;> rfl

theorem flaskAdd_parentFlask (g : VolGraph ν) (t : ν) (v : ℚ) :
    (flaskAdd g t v).parentFlask = g.parentFlask := by
  unfold flaskAdd
  split
  · rfl
  · split <;> rfl

theorem flaskAdd_associatedFlask (g : VolGraph ν) (t : ν) (v : ℚ) :
    (flaskAdd g t v).associatedFlask = g.associatedFlask := by
  unfold flaskAdd
  split
  · rfl
  · split <;> rfl

theorem sourcePhase_parentFlask (g : VolGraph ν) (s : ν) (v : ℚ) :
    (sourcePhase g s v).parentFlask = g.parentFlask := by
  unfold sourcePhase; rw [flaskCopy_parentFlask]; rfl

theorem sourcePhase_associatedFlask (g : VolGraph ν) (s : ν) (v : ℚ) :
    (sourcePhase g s v).associatedFlask = g.associatedFlask := by
  unfold sourcePhase; rw [flaskCopy_associatedFlask]; rfl

/-- After the source phase, the two members of a well-formed special-device
pair hold equal volumes, provided they held equal volumes before, or the
source is one of them (in which case the copy re-establishes equality), and
the source's own links do not reach into the pair from outside. -/
theorem sourcePhase_lockstep {g : VolGraph ν} {d f s : ν} (v : ℚ)
    (hdf : d ≠ f)
    (had : g.associatedFlask d = some f) (hpf : g.parentFlask f = some d)
    (hpd : g.parentFlask d = none) (haf : g.associatedFlask f = none)
    (hs : s ≠ d → s ≠ f →
      g.parentFlask s ≠ some d ∧ g.parentFlask s ≠ some f ∧
      g.associatedFlask s ≠ some d ∧ g.associatedFlask s ≠ some f)
    (heq : g.currentVolume d = g.currentVolume f) :
    (sourcePhase g s v).currentVolume d =
      (sourcePhase g s v).currentVolume f := by
  unfold sourcePhase
  rcases eq_or_ne s d with rfl | hsd
  · -- the source is the special device: its parent slot is empty, its
    -- associated flask is f, so f receives a copy of the new source volume
    rw [flaskCopy_of_assoc (by simpa using hpd) (by simpa using had)]
    simp [setCV_currentVolume, hdf, Ne.symm hdf]
  rcases eq_or_ne s f with rfl | hsf
  · -- the source is the associated flask: its parent is d, so d receives a
    -- copy of the new source volume
    rw [flaskCopy_of_parent (by simpa using hpf)]
    simp [setCV_currentVolume, hdf, Ne.symm hdf]
  · -- the source is outside the pair and none of its links reach the pair
    obtain ⟨h1, h2, h3, h4⟩ := hs hsd hsf
    rcases hp : g.parentFlask s with _ | p
    · rcases ha : g.associatedFlask s with _ | a
      · rw [flaskCopy_of_none (by simpa using hp) (by simpa using ha)]
        simp [setCV_currentVolume, Ne.symm hsd, Ne.symm hsf, heq]
      · have had' : a ≠ d := by rintro rfl; exact h3 ha
        have haf' : a ≠ f := by rintro rfl; exact h4 ha
        rw [flaskCopy_of_assoc (by simpa using hp) (by simpa using ha)]
        simp [setCV_currentVolume, Ne.symm hsd, Ne.symm hsf, Ne.symm had',
          Ne.symm haf', heq]
    · have hpd' : p ≠ d := by rintro rfl; exact h1 hp
      have hpf' : p ≠ f := by rintro rfl; exact h2 hp
      rw [flaskCopy_of_parent (by simpa using hp)]
      simp [setCV_currentVolume, Ne.symm hsd, Ne.symm hsf, Ne.symm hpd',
        Ne.symm hpf', heq]

/-- After the target phase, the two members of a well-formed special-device
pair hold equal volumes, provided they held equal volumes before and the
target's own links do not reach into the pair from outside. -/
theorem targetPhase_lockstep {g : VolGraph ν} {d f t : ν} (v : ℚ)
    (hdf : d ≠ f)
    (had : g.associatedFlask d = some f) (hpf : g.parentFlask f = some d)
    (hpd : g.parentFlask d = none) (haf : g.associatedFlask f = none)
    (ht : t ≠ d → t ≠ f →
      g.parentFlask t ≠ some d ∧ g.parentFlask t ≠ some f ∧
      g.associatedFlask t ≠ some d ∧ g.associatedFlask t ≠ some f)
    (heq : g.currentVolume d = g.currentVolume f) :
    (targetPhase g t v).currentVolume d =
      (targetPhase g t v).currentVolume f := by
  unfold targetPhase
  rcases eq_or_ne t d with rfl | htd
  · -- the target is the special device: f is incremented by the same volume
    rw [flaskAdd_of_assoc (by simpa using hpd) (by simpa using had)]
    simp [setCV_currentVolume, hdf, Ne.symm hdf, heq]
  rcases eq_or_ne t f with rfl | htf
  · -- the target is the associated flask: d is incremented by the same volume
    rw [flaskAdd_of_parent (by simpa using hpf)]
    simp [setCV_currentVolume, hdf, Ne.symm hdf, heq]
  · -- the target is outside the pair and none of its links reach the pair
    obtain ⟨h1, h2, h3, h4⟩ := ht htd htf
    rcases hp : g.parentFlask t with _ | p
    · rcases ha : g.associatedFlask t with _ | a
      · rw [flaskAdd_of_none (by simpa using hp) (by simpa using ha)]
        simp [setCV_currentVolume, Ne.symm htd, Ne.symm htf, heq]
      · have had' : a ≠ d := by rintro rfl; exact h3 ha
        have haf' : a ≠ f := by rintro rfl; exact h4 ha
        rw [flaskAdd_of_assoc (by simpa using hp) (by simpa using ha)]
        simp [setCV_currentVolume, Ne.symm htd, Ne.symm htf, Ne.symm had',
          Ne.symm haf', heq]
    · have hpd' : p ≠ d := by rintro rfl; exact h1 hp
      have hpf' : p ≠ f := by rintro rfl; exact h2 hp
      rw [flaskAdd_of_parent (by simpa using hp)]
      simp [setCV_currentVolume, Ne.symm htd, Ne.symm htf, Ne.symm hpd',
        Ne.symm hpf', heq]

/- ------------------------------------------------------------------ -/
/- Helper lemmas for the single-valve loop. -/

theorem vol_to_pump_eq_min (c v : ℚ) : vol_to_pump c v = min c v := by
  unfold vol_to_pump
  split_ifs with h
  · exact (min_eq_left (le_of_lt h)).symm
  · exact (min_eq_right (not_lt.1 h)).symm

/-- One unfolding of the loop when volume remains. -/
theorem move_single_valve_cycles_pos {fuel : ℕ} {c v : ℚ} (hv : 0 < v) :
    move_single_valve_cycles (fuel + 1) c v =
      vol_to_pump c v ::
        move_single_valve_cycles fuel c
          (if v - vol_to_pump c v < 0 then 0 else v - vol_to_pump c v) := by
  conv_lhs => rw [move_single_valve_cycles]
  rw [if_pos hv]

/-- The loop does nothing once the remaining volume reaches zero. -/
theorem move_single_valve_cycles_zero (fuel : ℕ) (c : ℚ) :
    move_single_valve_cycles fuel c 0 = [] := by
  cases fuel <;> simp [move_single_valve_cycles]

/-- The loop characterized in closed form: with enough fuel, cycle `i`
aspirates `min c (v - i * c)`, and there are `⌈v / c⌉` cycles. -/
theorem move_single_valve_cycles_eq (fuel : ℕ) (c v : ℚ) (hc : 0 < c)
    (hv : 0 < v) (hfuel : (⌈v / c⌉).toNat ≤ fuel) :
    move_single_valve_cycles fuel c v =
      (List.range (⌈v / c⌉).toNat).map (fun i : ℕ => min c (v - (i : ℚ) * c)) := by
  induction fuel generalizing v with
  | zero =>
    exfalso
    have h1 : (1 : ℤ) ≤ ⌈v / c⌉ := by
      rw [Int.le_ceil_iff]
      simpa using div_pos hv hc
    omega
  | succ fuel ih =>
    rcases le_or_lt v c with hvc | hvc
    · -- final cycle: the whole remainder fits in the syringe
      have hceil : ⌈v / c⌉ = 1 := by
        rw [Int.ceil_eq_iff]
        constructor
        · simpa using div_pos hv hc
        · push_cast
          rw [div_le_one hc]
          exact hvc
      have hvp : vol_to_pump c v = v := by
        unfold vol_to_pump; rw [if_neg (not_lt.2 hvc)]
      rw [move_single_valve_cycles_pos hv, hvp, hceil]
      simp [sub_self, move_single_valve_cycles_zero, List.range_succ,
        min_eq_right hvc]
    · -- a full syringe is aspirated and the loop continues
      have hvp : vol_to_pump c v = c := by
        unfold vol_to_pump; rw [if_pos hvc]
      have hv' : 0 < v - c := by linarith
      have hdiv : (v - c) / c = v / c - 1 := by
        field_simp
      have hceil : ⌈(v - c) / c⌉ = ⌈v / c⌉ - 1 := by
        rw [hdiv]
        exact_mod_cast Int.ceil_sub_int (v / c) 1
      have h2 : (2 : ℤ) ≤ ⌈v / c⌉ := by
        have h1q : (1 : ℚ) < v / c := (one_lt_div hc).2 hvc
        have h3 : (1 : ℤ) < ⌈v / c⌉ := by
          rw [Int.lt_ceil]; exact_mod_cast h1q
        omega
      have hfuel' : (⌈(v - c) / c⌉).toNat ≤ fuel := by
        rw [hceil]; omega
      rw [move_single_valve_cycles_pos hv, hvp,
        if_neg (not_lt.2 (le_of_lt hv')), ih (v - c) hv' hfuel']
      have hrange : (⌈v / c⌉).toNat = (⌈(v - c) / c⌉).toNat + 1 := by
        rw [hceil]; omega
      rw [hrange, List.range_succ_eq_map]
      simp only [List.map_cons, List.map_map]
      congr 1
      · rw [Nat.cast_zero, zero_mul, sub_zero, min_eq_left hvc.le]
      · apply List.map_congr_left
        intro i _
        simp only [Function.comp_apply]
        congr 1
        push_cast
        ring

/-- With enough fuel the per-cycle volumes sum to the whole volume moved. -/
theorem move_single_valve_cycles_sum (fuel : ℕ) (c v : ℚ) (hc : 0 < c)
    (hv : 0 < v) (hfuel : (⌈v / c⌉).toNat ≤ fuel) :
    (move_single_valve_cycles fuel c v).sum = v := by
  induction fuel generalizing v with
  | zero =>
    exfalso
    have h1 : (1 : ℤ) ≤ ⌈v / c⌉ := by
      rw [Int.le_ceil_iff]
      simpa using div_pos hv hc
    omega
  | succ fuel ih =>
    rcases le_or_lt v c with hvc | hvc
    · have hvp : vol_to_pump c v = v := by
        unfold vol_to_pump; rw [if_neg (not_lt.2 hvc)]
      rw [move_single_valve_cycles_pos hv, hvp]
      simp [sub_self, move_single_valve_cycles_zero]
    · have hvp : vol_to_pump c v = c := by
        unfold vol_to_pump; rw [if_pos hvc]
      have hv' : 0 < v - c := by linarith
      have hdiv : (v - c) / c = v / c - 1 := by
        field_simp
      have hceil : ⌈(v - c) / c⌉ = ⌈v / c⌉ - 1 := by
        rw [hdiv]
        exact_mod_cast Int.ceil_sub_int (v / c) 1
      have h2 : (2 : ℤ) ≤ ⌈v / c⌉ := by
        have h1q : (1 : ℚ) < v / c := (one_lt_div hc).2 hvc
        have h3 : (1 : ℤ) < ⌈v / c⌉ := by
          rw [Int.lt_ceil]; exact_mod_cast h1q
        omega
      have hfuel' : (⌈(v - c) / c⌉).toNat ≤ fuel := by
        rw [hceil]; omega
      rw [move_single_valve_cycles_pos hv, hvp,
        if_neg (not_lt.2 (le_of_lt hv')), List.sum_cons,
        ih (v - c) hv' hfuel']
      ring

/- ------------------------------------------------------------------ -/
/- Claim C10. -/

/-- C10: for every requested recording speed strictly below 1 (including 0
and negative values), `CameraExecutioner.change_recording_speed` is a silent
no-op (no log event, no state change); every value greater than or equal to
1 produces the level-5 log record carrying the speed. -/
theorem C10_camera_recording_speed (s : ℚ) :
    (s < 1 → change_recording_speed s = none) ∧
    (1 ≤ s → change_recording_speed s = some ⟨5, s⟩) := by
  refine ⟨fun h => ?_, fun h => ?_⟩
  · simp [change_recording_speed, not_le.mpr h]
  · simp [change_recording_speed, h]

/-- Witness for C10 at the concrete speeds 0 and 2. -/
theorem C10_camera_recording_speed_witness :
    change_recording_speed 0 = none ∧ change_recording_speed 2 = some ⟨5, 2⟩ :=
  ⟨(C10_camera_recording_speed 0).1 (by norm_num),
   (C10_camera_recording_speed 2).2 (by norm_num)⟩

/- ------------------------------------------------------------------ -/
/- Claim C4. -/

/-- C4 counterexample: the claim says a call from any thread other than the
worker thread is enqueued.  Take instance-creation thread 0, worker thread 1
and a third calling thread 2: the caller differs from the worker, yet the
wrapper executes the function directly (the comparison is against the
creation thread's identity, not the worker's). -/
theorem C4_command_thread_test_counterexample :
    ¬ ((2 : ℕ) ≠ 1 → command_dispatch 2 0 = CallPath.enqueue) := by
  decide

/-- C4 (amended): a device-actor command invocation is enqueued (then blocks
on the reply queue) exactly when it is made from the thread that created the
device instance (the one recorded in `__init__`); a call from any other
thread -- in particular from the worker thread, whose identity differs from
the creation thread's -- executes the wrapped function immediately. -/
theorem C4_command_thread_test (caller instanceThread workerThread : ℕ)
    (hw : workerThread ≠ instanceThread) :
    (command_dispatch caller instanceThread = CallPath.enqueue ↔
      caller = instanceThread) ∧
    command_dispatch workerThread instanceThread = CallPath.direct := by
  constructor
  · unfold command_dispatch
    split <;> simp_all
  · simp [command_dispatch, hw]

/-- Witness for C4 (amended) at creation thread 0, worker thread 1,
caller 2. -/
theorem C4_command_thread_test_witness :
    (command_dispatch 2 0 = CallPath.enqueue ↔ (2 : ℕ) = 0) ∧
    command_dispatch 1 0 = CallPath.direct :=
  C4_command_thread_test 2 0 1 (by decide)

/- ------------------------------------------------------------------ -/
/- Claim C6. -/

/-- C6: the claim states that a macro call whose actual argument count
differs from the declared parameter count expands, silently, to an empty
instruction list.  The `p[0] = []` assignment in `p_function` is dead code
(no `return`; `p[0] = body` runs afterwards unconditionally).  Evaluating
the embedded `p_function` at the failing inputs: a macro `M(x){ S OP(x); }`
called with two arguments `(5, 7)` expands to the full substituted body
`[[S, OP, 5]]`, not to `[]`; and called with zero arguments it raises
`KeyError` instead of compiling. -/
theorem C6_macro_arity_mismatch_not_empty :
    p_function ["x"] ["5", "7"] [["S", "OP", "x"]] =
      Except.ok [["S", "OP", "5"]] ∧
    p_function ["x"] [] [["S", "OP", "x"]] = Except.error "KeyError" ∧
    (Except.ok [["S", "OP", "5"]] : Except String (List (List String))) ≠
      Except.ok [] := by
  refine ⟨?_, ?_, by simp⟩ <;> rfl

/- ------------------------------------------------------------------ -/
/- Claim C2. -/

/-- C2 counterexample: moving 2 mL out of `flask1`, which holds only 1 mL,
completes (only a warning is logged), but `currentVolume(flask1)` is clamped
at 0 rather than decreased by exactly 2: the claim's "decreased by exactly
v" fails on overdraw. -/
theorem C2_move_accounting_counterexample :
    (update_node_volumes c2Graph "flask1" "flask2" 2).currentVolume "flask1" ≠
      c2Graph.currentVolume "flask1" - 2 := by
  norm_num [update_node_volumes, targetPhase, sourcePhase, flaskCopy,
    flaskAdd, setCV, c2Graph]
  rw [if_neg (by decide : ¬("flask1" = "flask2"))]
  norm_num

/-- C2 (amended): after a successful move of volume `v ≥ 0` from A to B
(distinct plain vessels, no associated/parent flask links), the source
volume becomes `max 0 (old - v)` — i.e. it decreases by exactly `v` only
when `v` does not exceed the stored source volume, and is clamped at zero
otherwise — the destination volume increases by exactly `v`, and neither
volume becomes negative (the destination assuming it started nonnegative).
The redirection to associated/parent flasks behaves as established for
claim C7. -/
theorem C2_move_volume_accounting {ν : Type} [DecidableEq ν]
    (g : VolGraph ν) (A B : ν) (v : ℚ)
    (hv : 0 ≤ v) (hAB : A ≠ B)
    (hpA : g.parentFlask A = none) (haA : g.associatedFlask A = none)
    (hpB : g.parentFlask B = none) (haB : g.associatedFlask B = none) :
    (update_node_volumes g A B v).currentVolume A =
      max 0 (g.currentVolume A - v) ∧
    (update_node_volumes g A B v).currentVolume B = g.currentVolume B + v ∧
    0 ≤ (update_node_volumes g A B v).currentVolume A ∧
    (0 ≤ g.currentVolume B →
      0 ≤ (update_node_volumes g A B v).currentVolume B) ∧
    (v ≤ g.currentVolume A →
      (update_node_volumes g A B v).currentVolume A =
        g.currentVolume A - v) := by
  have hsrc : sourcePhase g A v = setCV g A
      (if g.currentVolume A - v < 0 then 0 else g.currentVolume A - v) := by
    unfold sourcePhase
    exact flaskCopy_of_none (by simpa using hpA) (by simpa using haA)
  have hupd : update_node_volumes g A B v =
      setCV (sourcePhase g A v) B ((sourcePhase g A v).currentVolume B + v) := by
    unfold update_node_volumes targetPhase
    exact flaskAdd_of_none (by simp [sourcePhase_parentFlask, hpB])
      (by simp [sourcePhase_associatedFlask, haB])
  have hA : (update_node_volumes g A B v).currentVolume A =
      (if g.currentVolume A - v < 0 then 0 else g.currentVolume A - v) := by
    rw [hupd, hsrc]; simp [hAB]
  have hB : (update_node_volumes g A B v).currentVolume B =
      g.currentVolume B + v := by
    rw [hupd, hsrc]; simp [Ne.symm hAB]
  refine ⟨?_, hB, ?_, fun h => ?_, fun h => ?_⟩
  · rw [hA]
    split_ifs with hc
    · exact (max_eq_left hc.le).symm
    · exact (max_eq_right (not_lt.1 hc)).symm
  · rw [hA]
    split_ifs with hc
    · exact le_refl 0
    · exact not_lt.1 hc
  · rw [hB]; linarith
  · rw [hA, if_neg (by linarith)]

/-- Witness for C2 (amended): moving 2 mL out of a 1 mL source. -/
theorem C2_move_volume_accounting_witness :
    (update_node_volumes c2Graph "flask1" "flask2" 2).currentVolume "flask1" =
      max 0 (c2Graph.currentVolume "flask1" - 2) ∧
    (update_node_volumes c2Graph "flask1" "flask2" 2).currentVolume "flask2" =
      c2Graph.currentVolume "flask2" + 2 ∧
    0 ≤ (update_node_volumes c2Graph "flask1" "flask2" 2).currentVolume "flask1" ∧
    (0 ≤ c2Graph.currentVolume "flask2" →
      0 ≤ (update_node_volumes c2Graph "flask1" "flask2" 2).currentVolume "flask2") ∧
    (2 ≤ c2Graph.currentVolume "flask1" →
      (update_node_volumes c2Graph "flask1" "flask2" 2).currentVolume "flask1" =
        c2Graph.currentVolume "flask1" - 2) :=
  C2_move_volume_accounting c2Graph "flask1" "flask2" 2 (by norm_num)
    (by decide) rfl rfl rfl rfl

/- ------------------------------------------------------------------ -/
/- Claim C7. -/

/-- C7: for every special device `d` paired with an associated flask `f` by
the back-references established in `Setup.setup_special_devices`
(`d.associated_flask = f`, `f.parent_flask = d`, the pair being well formed:
`d` has no parent link, `f` no associated link, and the other endpoint of
the transfer does not itself link into the pair), any call to
`PumpExecutioner.update_node_volumes` with either member of the pair as
source or as target preserves equality of the two current volumes. -/
theorem C7_associated_flask_lockstep {ν : Type} [DecidableEq ν]
    (g : VolGraph ν) (d f s t : ν) (v : ℚ)
    (hdf : d ≠ f)
    (had : g.associatedFlask d = some f) (hpf : g.parentFlask f = some d)
    (hpd : g.parentFlask d = none) (haf : g.associatedFlask f = none)
    (hmem : s = d ∨ s = f ∨ t = d ∨ t = f)
    (hs : s ≠ d → s ≠ f →
      g.parentFlask s ≠ some d ∧ g.parentFlask s ≠ some f ∧
      g.associatedFlask s ≠ some d ∧ g.associatedFlask s ≠ some f)
    (ht : t ≠ d → t ≠ f →
      g.parentFlask t ≠ some d ∧ g.parentFlask t ≠ some f ∧
      g.associatedFlask t ≠ some d ∧ g.associatedFlask t ≠ some f)
    (heq : g.currentVolume d = g.currentVolume f) :
    (update_node_volumes g s t v).currentVolume d =
      (update_node_volumes g s t v).currentVolume f := by
  unfold update_node_volumes
  apply targetPhase_lockstep v hdf
  · rw [sourcePhase_associatedFlask]; exact had
  · rw [sourcePhase_parentFlask]; exact hpf
  · rw [sourcePhase_parentFlask]; exact hpd
  · rw [sourcePhase_associatedFlask]; exact haf
  · intro h1 h2
    rw [sourcePhase_parentFlask, sourcePhase_associatedFlask]
    exact ht h1 h2
  · exact sourcePhase_lockstep v hdf had hpf hpd haf hs heq

/-- Witness for C7: moving 2 mL from the filter to the waste flask keeps the
filter and its associated bottom flask in lock-step. -/
theorem C7_associated_flask_lockstep_witness :
    (update_node_volumes c7Graph "filter" "waste" 2).currentVolume "filter" =
      (update_node_volumes c7Graph "filter" "waste" 2).currentVolume
        "filter_bottom" :=
  C7_associated_flask_lockstep c7Graph "filter" "filter_bottom" "filter"
    "waste" 2 (by decide) rfl rfl rfl rfl (Or.inl rfl)
    (fun h _ => absurd rfl h) (fun _ _ => by decide) (by norm_num [c7Graph])

/- ------------------------------------------------------------------ -/
/- Claim C3. -/

/-- C3: for every single-valve path [A, V, B], pump capacity `c > 0` and
volume `v > c`, `PumpExecutioner.move_single_valve` performs exactly
`⌈v / c⌉` aspirate/dispense cycles, cycle `i` aspirating
`min c (v - i * c)` — that is, `min(c, remaining volume)` — and the
per-cycle volumes summing to exactly `v`.  The loop's result is the same
for any fuel bound of at least `⌈v / c⌉` iterations, which is the
termination of the `while` loop. -/
theorem C3_single_valve_cycle_count (c v : ℚ) (fuel : ℕ) (hc : 0 < c)
    (hv : c < v) (hfuel : (⌈v / c⌉).toNat ≤ fuel) :
    move_single_valve_cycles fuel c v =
      (List.range (⌈v / c⌉).toNat).map (fun i : ℕ => min c (v - (i : ℚ) * c)) ∧
    ((move_single_valve_cycles fuel c v).length : ℤ) = ⌈v / c⌉ ∧
    (move_single_valve_cycles fuel c v).sum = v := by
  have hv0 : 0 < v := lt_trans hc hv
  have hceil : (0 : ℤ) ≤ ⌈v / c⌉ := Int.ceil_nonneg (le_of_lt (div_pos hv0 hc))
  refine ⟨move_single_valve_cycles_eq fuel c v hc hv0 hfuel, ?_,
    move_single_valve_cycles_sum fuel c v hc hv0 hfuel⟩
  rw [move_single_valve_cycles_eq fuel c v hc hv0 hfuel]
  simp [Int.toNat_of_nonneg hceil]

/-- Witness for C3: capacity 2 mL, volume 5 mL, three cycles [2, 2, 1]. -/
theorem C3_single_valve_cycle_count_witness :
    move_single_valve_cycles 3 2 5 =
      (List.range (⌈(5 : ℚ) / 2⌉).toNat).map (fun i : ℕ => min 2 (5 - (i : ℚ) * 2)) ∧
    ((move_single_valve_cycles 3 2 5).length : ℤ) = ⌈(5 : ℚ) / 2⌉ ∧
    (move_single_valve_cycles 3 2 5).sum = 5 :=
  C3_single_valve_cycle_count 2 5 3 (by norm_num) (by norm_num)
    (by rw [show ⌈(5 : ℚ) / 2⌉ = 3 by rw [Int.ceil_eq_iff] <;> norm_num]
        norm_num)

/- ------------------------------------------------------------------ -/
/- Helper lemmas for the dispatcher. -/

theorem sublist_of_mem_append {α : Type} {a b : α} {xs ys : List α}
    (ha : a ∈ xs) (hb : b ∈ ys) : List.Sublist [a, b] (xs ++ ys) := by
  have h1 : List.Sublist [a] xs := List.singleton_sublist.mpr ha
  have h2 : List.Sublist [b] ys := List.singleton_sublist.mpr hb
  simpa using h1.append h2

/-- A Sequential command occurring anywhere in the program produces its
`executed` event in the trace, whatever the starting pool. -/
theorem executed_mem_executeAll {τ : Type} (s : τ) :
    ∀ (prog : List (Mode × τ)) (pool : List τ),
      (Mode.Sequential, s) ∈ prog →
      DispatchEvent.executed s ∈ executeAll pool prog := by
  intro prog
  induction prog with
  | nil => intro pool h; simp at h
  | cons cmd rest ih =>
    intro pool h
    rcases List.mem_cons.mp h with rfl | h
    · simp [executeAll, executeStep]
    · unfold executeAll
      exact List.mem_append_right _ (ih _ h)

/-- The barrier property: any task that is in flight (in the pool or spawned
by a Parallel command) before a Sequential command is completed before that
Sequential command's handler executes — the trace contains the `completed`
event strictly before the `executed` event. -/
theorem barrier_ordering {τ : Type} (t s : τ) :
    ∀ (l1 : List (Mode × τ)) (pool : List τ) (l2 : List (Mode × τ)),
      (t ∈ pool ∨ (Mode.Parallel, t) ∈ l1) →
      List.Sublist [DispatchEvent.completed t, DispatchEvent.executed s]
        (executeAll pool (l1 ++ (Mode.Sequential, s) :: l2)) := by
  intro l1
  induction l1 with
  | nil =>
    intro pool l2 h
    rcases h with h | h
    · have h1 : DispatchEvent.completed t ∈
          pool.map (DispatchEvent.completed (τ := τ)) :=
        List.mem_map_of_mem _ h
      have h2 : DispatchEvent.executed s ∈
          DispatchEvent.executed s :: executeAll ([] : List τ) l2 :=
        List.mem_cons_self _ _
      have := sublist_of_mem_append h1 h2
      simpa [executeAll, executeStep] using this
    · simp at h
  | cons cmd rest ih =>
    intro pool l2 h
    rcases cmd with ⟨m, u⟩
    cases m with
    | Parallel =>
      have h' : t ∈ pool ++ [u] ∨ (Mode.Parallel, t) ∈ rest := by
        rcases h with h | h
        · exact Or.inl (List.mem_append_left _ h)
        · rcases List.mem_cons.mp h with heq | h
          · exact Or.inl (List.mem_append_right _ (by
              simp [Prod.ext_iff] at heq
              simp [heq]))
          · exact Or.inr h
      have hrec := ih (pool ++ [u]) l2 h'
      refine hrec.trans ?_
      simpa [executeAll, executeStep] using
        List.sublist_append_right
          [DispatchEvent.spawned (τ := τ) u]
          (executeAll (pool ++ [u]) (rest ++ (Mode.Sequential, s) :: l2))
    | Sequential =>
      rcases h with h | h
      · have h1 : DispatchEvent.completed t ∈
            pool.map (DispatchEvent.completed (τ := τ)) ++
              [DispatchEvent.executed u] :=
          List.mem_append_left _ (List.mem_map_of_mem _ h)
        have h2 : DispatchEvent.executed s ∈
            executeAll ([] : List τ) (rest ++ (Mode.Sequential, s) :: l2) :=
          executed_mem_executeAll s _ [] (by simp)
        have := sublist_of_mem_append h1 h2
        simpa [executeAll, executeStep] using this
      · have h' : (Mode.Parallel, t) ∈ rest := by
          rcases List.mem_cons.mp h with heq | h
          · exact absurd (congrArg Prod.fst heq) (by simp)
          · exact h
        have hrec := ih [] l2 (Or.inr h')
        refine hrec.trans ?_
        simpa [executeAll, executeStep] using
          List.sublist_append_right
            (pool.map (DispatchEvent.completed (τ := τ)) ++
              [DispatchEvent.executed u])
            (executeAll ([] : List τ) (rest ++ (Mode.Sequential, s) :: l2))

/- ------------------------------------------------------------------ -/
/- Claim C5. -/

/-- C5: a Sequential instruction first joins every background thread in the
in-flight task set, leaving the set empty, before its own handler runs
(first conjunct: the dispatch step for a Sequential command empties the
pool and emits all `completed` events before the `executed` event); as a
consequence, for every pair of Parallel instructions followed by a
Sequential instruction — and in general for any task in flight before a
Sequential instruction — the trace contains the task's completion strictly
before the Sequential instruction's execution (second conjunct). -/
theorem C5_sequential_barrier {τ : Type} :
    (∀ (pool : List τ) (cmd : Mode × τ), cmd.1 = Mode.Sequential →
      executeStep pool cmd =
        ([], pool.map DispatchEvent.completed ++
          [DispatchEvent.executed cmd.2])) ∧
    (∀ (t s : τ) (pool : List τ) (l1 l2 : List (Mode × τ)),
      t ∈ pool ∨ (Mode.Parallel, t) ∈ l1 →
      List.Sublist [DispatchEvent.completed t, DispatchEvent.executed s]
        (executeAll pool (l1 ++ (Mode.Sequential, s) :: l2))) := by
  constructor
  · intro pool cmd hseq
    rcases cmd with ⟨m, u⟩
    cases hseq
    rfl
  · intro t s pool l1 l2 h
    exact barrier_ordering t s l1 pool l2 h

/-- Witness for C5: two Parallel tasks 0 and 1 followed by the Sequential
task 2 — both completions precede the execution in the trace. -/
theorem C5_sequential_barrier_witness :
    executeStep ([0] : List ℕ) (Mode.Sequential, 2) =
      ([], [DispatchEvent.completed 0, DispatchEvent.executed 2]) ∧
    List.Sublist [DispatchEvent.completed 0, DispatchEvent.executed 2]
      (executeAll ([] : List ℕ)
        [(Mode.Parallel, 0), (Mode.Parallel, 1), (Mode.Sequential, 2)]) ∧
    List.Sublist [DispatchEvent.completed 1, DispatchEvent.executed 2]
      (executeAll ([] : List ℕ)
        [(Mode.Parallel, 0), (Mode.Parallel, 1), (Mode.Sequential, 2)]) := by
  refine ⟨?_, ?_, ?_⟩
  · have h := (C5_sequential_barrier (τ := ℕ)).1 [0] (Mode.Sequential, 2) rfl
    simpa using h
  · exact (C5_sequential_barrier (τ := ℕ)).2 0 2 []
      [(Mode.Parallel, 0), (Mode.Parallel, 1)] [] (Or.inr (by simp))
  · exact (C5_sequential_barrier (τ := ℕ)).2 1 2 []
      [(Mode.Parallel, 0), (Mode.Parallel, 1)] [] (Or.inr (by simp))

/- ------------------------------------------------------------------ -/
/- Helper lemmas for the polling loops. -/

theorem pollLoop_succ (fuel : ℕ) (test : ℚ → Bool) (r : ℕ → ℚ) (k : ℕ) :
    pollLoop (fuel + 1) test r k =
      if test (r k) then some k else pollLoop fuel test r (k + 1) := by
  conv_lhs => rw [pollLoop]

/-- The reading at the index a polling loop returns passes the exit test. -/
theorem pollLoop_some_test {test : ℚ → Bool} {r : ℕ → ℚ} :
    ∀ {fuel k n : ℕ}, pollLoop fuel test r k = some n → test (r n) = true := by
  intro fuel
  induction fuel with
  | zero => intro k n h; simp [pollLoop] at h
  | succ fuel ih =>
    intro k n h
    rw [pollLoop_succ] at h
    by_cases hc : test (r k)
    · rw [if_pos hc] at h
      injection h with h'
      rw [← h']; exact hc
    · rw [if_neg hc] at h
      exact ih h

/-- A polling loop whose exit test never passes returns for no fuel bound:
the `while` loop runs forever (there is no timeout). -/
theorem pollLoop_none (test : ℚ → Bool) (r : ℕ → ℚ) :
    ∀ (fuel k : ℕ), (∀ j, k ≤ j → test (r j) = false) →
      pollLoop fuel test r k = none := by
  intro fuel
  induction fuel with
  | zero => intro k _; rfl
  | succ fuel ih =>
    intro k h
    rw [pollLoop_succ, h k le_rfl]
    simp only [Bool.false_eq_true, if_false]
    exact ih (k + 1) (fun j hj => h j (by omega))

/- ------------------------------------------------------------------ -/
/- Claim C8. -/

/-- C8 counterexample: the stirrer's wait loop, approaching a 50 °C setpoint
from the first reading 20 °C, returns at the very next reading 80 °C — a
reading that merely crossed the setpoint and is 30 °C away from it, far
outside any small absolute tolerance (the chiller/rotavap loops use
0.5 °C). -/
theorem C8_wait_for_temp_counterexample :
    stirrer_wait_for_temp 5 50 c8Readings = some 1 ∧
    ¬ |c8Readings 1 - 50| ≤ 1/2 := by
  constructor
  · unfold stirrer_wait_for_temp
    rw [if_pos (by norm_num [c8Readings])]
    rw [show (5 : ℕ) = 4 + 1 from rfl, pollLoop_succ]
    rw [if_pos]
    rw [show c8Readings 1 = 80 from rfl,
      decide_eq_false (by norm_num : ¬((80 : ℚ) < 50))]
    rfl
  · rw [show c8Readings 1 = 80 from rfl]
    norm_num

/-- C8 (amended): the chiller and rotavap wait loops poll every 5 seconds
with no timeout and return exactly at the first reading within the 0.5 °C
absolute tolerance of the setpoint (first, second and last two conjuncts:
whenever they return, the final reading is within tolerance, and if no
reading ever enters the tolerance band they never return, for any fuel).
The stirrer wait loop polls every 5 seconds with no timeout but exits as
soon as a reading crosses the setpoint — at or above it when approaching
from below, at or below it when approaching from above, immediately when
the first reading equals it — with no tolerance band on the far side
(third conjunct). -/
theorem C8_wait_for_temp_tolerance (sp : ℚ) (r : ℕ → ℚ) (fuel n : ℕ) :
    (chiller_wait_for_temp fuel sp r = some n → |r n - sp| ≤ 1/2) ∧
    (rotavap_wait_for_temp fuel sp r = some n → |r n - sp| ≤ 1/2) ∧
    (stirrer_wait_for_temp fuel sp r = some n →
      (r 0 < sp → sp ≤ r n) ∧ (sp < r 0 → r n ≤ sp) ∧ (r 0 = sp → n = 0)) ∧
    ((∀ j, 1/2 < |r j - sp|) → chiller_wait_for_temp fuel sp r = none) ∧
    ((∀ j, 1/2 < |r j - sp|) → rotavap_wait_for_temp fuel sp r = none) := by
  refine ⟨?_, ?_, ?_, ?_, ?_⟩
  · -- chiller: the returned reading is within tolerance
    unfold chiller_wait_for_temp
    split_ifs with h1 h2
    · intro h
      have := pollLoop_some_test h
      simp only [chillerExitTest, Bool.not_eq_eq_eq_not, Bool.not_true,
        decide_eq_false_iff_not, not_lt] at this
      exact this
    · intro h
      have := pollLoop_some_test h
      simp only [chillerExitTest, Bool.not_eq_eq_eq_not, Bool.not_true,
        decide_eq_false_iff_not, not_lt] at this
      exact this
    · intro h
      injection h with h'
      have hsp : r 0 = sp := le_antisymm (not_lt.1 h2) (not_lt.1 h1)
      rw [← h', hsp]
      norm_num
  · -- rotavap: the returned reading is within the temperature window
    intro h
    have := pollLoop_some_test h
    simp only [rotavapExitTest, Bool.and_eq_true, Bool.not_eq_eq_eq_not,
      Bool.not_true, decide_eq_false_iff_not, not_lt] at this
    rw [abs_le]
    constructor <;> linarith [this.1, this.2]
  · -- stirrer: crossing semantics
    unfold stirrer_wait_for_temp
    split_ifs with h1 h2
    · intro h
      have := pollLoop_some_test h
      simp only [Bool.not_eq_eq_eq_not, Bool.not_true,
        decide_eq_false_iff_not, not_lt] at this
      exact ⟨fun _ => this, fun hgt => absurd hgt (by linarith),
        fun heq => absurd heq (by linarith [h1])⟩
    · intro h
      have := pollLoop_some_test h
      simp only [Bool.not_eq_eq_eq_not, Bool.not_true,
        decide_eq_false_iff_not, not_lt] at this
      exact ⟨fun hlt => absurd hlt (by linarith), fun _ => this,
        fun heq => absurd heq (by linarith [h2])⟩
    · intro h
      injection h with h'
      exact ⟨fun hlt => absurd hlt h1, fun hgt => absurd hgt h2,
        fun _ => h'.symm⟩
  · -- chiller: no reading in band, no return (no timeout)
    intro hall
    unfold chiller_wait_for_temp
    have htest : ∀ j, (1 : ℕ) ≤ j → chillerExitTest sp (r j) = false := by
      intro j _
      simp only [chillerExitTest, Bool.not_eq_eq_eq_not, Bool.not_false,
        decide_eq_true_eq]
      exact hall j
    split_ifs with h1 h2
    · exact pollLoop_none _ _ fuel 1 htest
    · exact pollLoop_none _ _ fuel 1 htest
    · exfalso
      have hsp : r 0 = sp := le_antisymm (not_lt.1 h2) (not_lt.1 h1)
      have := hall 0
      rw [hsp] at this
      norm_num at this
  · -- rotavap: no reading in window, no return (no timeout)
    intro hall
    unfold rotavap_wait_for_temp
    apply pollLoop_none _ _ fuel 0
    intro j _
    have := hall j
    rcases lt_abs.1 this with hgt | hlt
    · simp only [rotavapExitTest, Bool.and_eq_false_iff,
        Bool.not_eq_eq_eq_not, Bool.not_false, decide_eq_true_eq]
      right; linarith
    · simp only [rotavapExitTest, Bool.and_eq_false_iff,
        Bool.not_eq_eq_eq_not, Bool.not_false, decide_eq_true_eq]
      left; linarith

/-- Witness for C8 (amended): readings 20 °C then 50 °C against a 50 °C
setpoint for the three loops, and readings stuck at 100 °C for the
no-timeout conjuncts. -/
theorem C8_wait_for_temp_tolerance_witness :
    |c8WitnessReadings 1 - 50| ≤ 1/2 ∧
    (50 : ℚ) ≤ c8WitnessReadings 1 ∧
    chiller_wait_for_temp 2 50 c8StuckReadings = none ∧
    rotavap_wait_for_temp 2 50 c8StuckReadings = none := by
  have hchi : chiller_wait_for_temp 2 50 c8WitnessReadings = some 1 := by
    unfold chiller_wait_for_temp
    rw [if_pos (by norm_num [c8WitnessReadings])]
    rw [show (2 : ℕ) = 1 + 1 from rfl, pollLoop_succ]
    rw [if_pos]
    simp only [chillerExitTest, show c8WitnessReadings 1 = 50 from rfl]
    rw [decide_eq_false (by norm_num : ¬(|(50 : ℚ) - 50| > 1/2))]
    rfl
  have hsti : stirrer_wait_for_temp 2 50 c8WitnessReadings = some 1 := by
    unfold stirrer_wait_for_temp
    rw [if_pos (by norm_num [c8WitnessReadings])]
    rw [show (2 : ℕ) = 1 + 1 from rfl, pollLoop_succ]
    rw [if_pos]
    rw [show c8WitnessReadings 1 = 50 from rfl,
      decide_eq_false (by norm_num : ¬((50 : ℚ) < 50))]
    rfl
  have hstuck : ∀ j : ℕ, (1 : ℚ)/2 < |c8StuckReadings j - 50| := by
    intro j
    norm_num [c8StuckReadings]
  refine ⟨(C8_wait_for_temp_tolerance 50 c8WitnessReadings 2 1).1 hchi,
    ((C8_wait_for_temp_tolerance 50 c8WitnessReadings 2 1).2.2.1 hsti).1
      (by norm_num [c8WitnessReadings]),
    (C8_wait_for_temp_tolerance 50 c8StuckReadings 2 0).2.2.2.1 hstuck,
    (C8_wait_for_temp_tolerance 50 c8StuckReadings 2 0).2.2.2.2 hstuck⟩

/- ------------------------------------------------------------------ -/
/- Helper lemma for the crash-dump rebuild. -/

/-- Looking a key up in the rebuilt attribute list: the mapped function
preserves keys, so the result is the live value overwritten by a nonzero
saved value under the same key, when one exists. -/
theorem lookup_map_rebuild (saved : List (String × ℚ)) (k : String) :
    ∀ attrs : List (String × ℚ),
      (attrs.map fun kv =>
        match saved.lookup kv.1 with
        | some v => if v ≠ 0 then (kv.1, v) else kv
        | none => kv).lookup k =
      (attrs.lookup k).map fun old =>
        match saved.lookup k with
        | some v => if v ≠ 0 then v else old
        | none => old := by
  intro attrs
  induction attrs with
  | nil => rfl
  | cons kv rest ih =>
    rcases kv with ⟨a, b⟩
    by_cases hk : k = a
    · subst hk
      rcases hs : saved.lookup k with _ | v
      · simp [List.lookup, hs]
      · by_cases hv : v = 0 <;> simp [List.lookup, hs, hv]
    · have hba : (k == a) = false := beq_eq_false_iff_ne.mpr hk
      rcases hs : saved.lookup a with _ | v
      · simpa [List.lookup, hba, hs] using ih
      · by_cases hv : v = 0 <;>
          simpa [List.lookup, hba, hs, hv] using ih

/- ------------------------------------------------------------------ -/
/- Claim C9. -/

/-- C9 counterexample: the snapshot records `current_volume = 0` for
`flask1`, the freshly loaded graph holds 5 mL; after
`Chempiler.rebuild_graph` the volume is still 5 mL — the saved value 0 is
falsy (`if saved_value:`) and does not overwrite, contradicting "each saved
attribute value overwrites the corresponding attribute". -/
theorem C9_zero_volume_counterexample :
    rebuild_graph c9Dump c9Graph = c9Graph ∧ (0 : ℚ) ≠ 5 := by
  constructor
  · rfl
  · norm_num

/-- C9 (amended): after every executed instruction the run controller
serializes, keyed by node id, the restricted attribute set (only
`current_volume`) of every node that is not a pump and not a valve
(conjuncts 1 and 2: exactly those nodes are serialized, each to its
attributes restricted to CRASH_DUMP_KEYS); on restart with recovery
requested, every graph node whose id has a nonempty snapshot entry has its
attributes rebuilt from it (conjunct 3; ids without an entry are left
alone, conjunct 4), and each saved attribute value overwrites the
corresponding live attribute only when the saved value is nonzero — a
saved value of 0, or an absent key, leaves the live attribute unchanged
(conjunct 5). -/
theorem C9_crash_dump_rebuild (g : List (String × GNode))
    (dump : List (String × List (String × ℚ)))
    (name : String) (node : GNode) (saved : List (String × ℚ)) (k : String) :
    ((name, node) ∈ g → node.className ≠ "chemputer_pump" →
      node.className ≠ "chemputer_valve" →
      (name, node.attrs.filter fun kv => crash_dump_keys.contains kv.1) ∈
        dump_graph g) ∧
    (∀ entry, (name, entry) ∈ dump_graph g →
      ∃ nd, (name, nd) ∈ g ∧ nd.className ≠ "chemputer_pump" ∧
        nd.className ≠ "chemputer_valve" ∧
        entry = nd.attrs.filter fun kv => crash_dump_keys.contains kv.1) ∧
    ((name, node) ∈ g → dump.lookup name = some saved → saved ≠ [] →
      (name, rebuild_node saved node) ∈ rebuild_graph dump g) ∧
    ((name, node) ∈ g → dump.lookup name = none →
      (name, node) ∈ rebuild_graph dump g) ∧
    ((rebuild_node saved node).attrs.lookup k =
      (node.attrs.lookup k).map fun old =>
        match saved.lookup k with
        | some v => if v ≠ 0 then v else old
        | none => old) := by
  refine ⟨?_, ?_, ?_, ?_, ?_⟩
  · intro hmem hpump hvalve
    unfold dump_graph
    refine List.mem_map.2 ⟨(name, node), List.mem_filter.2 ⟨hmem, ?_⟩, rfl⟩
    simp [hpump, hvalve]
  · intro entry h
    unfold dump_graph at h
    rcases List.mem_map.1 h with ⟨⟨name', nd⟩, hp, heq⟩
    rcases List.mem_filter.1 hp with ⟨hpg, hpred⟩
    simp only [Prod.mk.injEq] at heq
    rcases heq with ⟨rfl, rfl⟩
    refine ⟨nd, hpg, ?_, ?_, rfl⟩ <;>
      · simp only [Bool.not_eq_eq_eq_not, Bool.not_true, Bool.or_eq_false_iff,
          beq_eq_false_iff_ne] at hpred
        first
        | exact hpred.1
        | exact hpred.2
  · intro hmem hlook hne
    unfold rebuild_graph
    refine List.mem_map.2 ⟨(name, node), hmem, ?_⟩
    simp only [hlook]
    rw [if_neg hne]
  · intro hmem hlook
    unfold rebuild_graph
    refine List.mem_map.2 ⟨(name, node), hmem, ?_⟩
    simp only [hlook]
  · exact lookup_map_rebuild saved k node.attrs

/-- Witness for C9 (amended): the flask is serialized (the pump is not),
a nonzero saved volume rebuilds the node, an id absent from the snapshot is
left alone, and the per-attribute rule at `current_volume`. -/
theorem C9_crash_dump_rebuild_witness :
    ("flask1",
      (GNode.mk "flask" [("current_volume", 5)]).attrs.filter
        fun kv => crash_dump_keys.contains kv.1) ∈
      dump_graph c9WitnessGraph ∧
    (∃ nd, ("flask1", nd) ∈ c9WitnessGraph ∧
      nd.className ≠ "chemputer_pump" ∧ nd.className ≠ "chemputer_valve" ∧
      [("current_volume", (5 : ℚ))] =
        nd.attrs.filter fun kv => crash_dump_keys.contains kv.1) ∧
    ("flask1",
      rebuild_node [("current_volume", 7)]
        (GNode.mk "flask" [("current_volume", 5)])) ∈
      rebuild_graph [("flask1", [("current_volume", 7)])] c9WitnessGraph ∧
    ("pump1", GNode.mk "chemputer_pump" [("current_volume", 2)]) ∈
      rebuild_graph [("flask1", [("current_volume", 7)])] c9WitnessGraph ∧
    (rebuild_node [("current_volume", 7)]
        (GNode.mk "flask" [("current_volume", 5)])).attrs.lookup
      "current_volume" =
      ((GNode.mk "flask" [("current_volume", 5)]).attrs.lookup
        "current_volume").map fun old =>
        match List.lookup "current_volume" [("current_volume", (7 : ℚ))] with
        | some v => if v ≠ 0 then v else old
        | none => old := by
  have h := C9_crash_dump_rebuild c9WitnessGraph
    [("flask1", [("current_volume", 7)])] "flask1"
    (GNode.mk "flask" [("current_volume", 5)]) [("current_volume", 7)]
    "current_volume"
  have hmem : ("flask1", GNode.mk "flask" [("current_volume", 5)]) ∈
      c9WitnessGraph := by
    simp [c9WitnessGraph]
  refine ⟨h.1 hmem (by simp) (by simp), ?_, ?_, ?_, h.2.2.2.2⟩
  · refine h.2.1 [("current_volume", 5)] ?_
    simp [dump_graph, c9WitnessGraph, crash_dump_keys]
  · exact h.2.2.1 hmem rfl (by simp)
  · have h2 := C9_crash_dump_rebuild c9WitnessGraph
      [("flask1", [("current_volume", 7)])] "pump1"
      (GNode.mk "chemputer_pump" [("current_volume", 2)])
      [("current_volume", 7)] "current_volume"
    refine h2.2.2.2.1 (by simp [c9WitnessGraph]) rfl

/- ------------------------------------------------------------------ -/
/- Helper lemmas for the bucket-brigade beat loop. -/

theorem xor_mod_two (i j : ℕ) :
    Bool.xor (i % 2 == 1) (j % 2 == 1) = true ↔ (i + j) % 2 = 1 := by
  rcases Nat.mod_two_eq_zero_or_one i with hi | hi <;>
    rcases Nat.mod_two_eq_zero_or_one j with hj | hj <;>
      simp [hi, hj, Nat.add_mod]

theorem beat_pumps_length (m : ℚ) (i : ℕ) (vol : ℚ) (ps : List ℚ) :
    (beat_pumps m i vol ps).length = ps.length := by
  simp [beat_pumps]

theorem getD_eq_zero_of_all_zero {ps : List ℚ} (h : ∀ x ∈ ps, x = 0)
    (j : ℕ) : ps.getD j 0 = 0 := by
  rcases lt_or_ge j ps.length with hj | hj
  · rw [List.getD_eq_getElem _ _ hj]
    exact h _ (List.getElem_mem hj)
  · rw [List.getD_eq_default _ _ hj]

/-- Under the invariant, a beat is a plain shift: stage 0 receives the
aspirated slug (on even beats), every later stage receives its
predecessor's pre-beat volume, and the last stage's volume leaves the
chain. -/
theorem beat_pumps_shift (m : ℚ) (i : ℕ) (vol : ℚ) (ps : List ℚ)
    (hlen : 1 ≤ ps.length) (hinv : BrigadeInv i vol ps) :
    beat_pumps m i vol ps =
      (if i % 2 = 0 then volume_to_pump m vol else 0) :: ps.dropLast := by
  obtain ⟨-, hpar⟩ := hinv
  apply List.ext_get
  · simp [beat_pumps_length, List.length_dropLast]
    omega
  intro j h1 h2
  rw [show (beat_pumps m i vol ps).get ⟨j, h1⟩ = beat_pump m i vol ps j by
    simp [beat_pumps]]
  have hjlen : j < ps.length := by
    simpa [beat_pumps_length] using h1
  match j with
  | 0 =>
    have hhead : ((if i % 2 = 0 then volume_to_pump m vol else 0) ::
        ps.dropLast).get ⟨0, h2⟩ =
        (if i % 2 = 0 then volume_to_pump m vol else 0) := rfl
    rw [hhead]
    unfold beat_pump
    rw [if_pos (rfl : (0 : ℕ) = 0)]
    rcases Nat.mod_two_eq_zero_or_one i with hi | hi
    · rw [if_pos hi, if_pos hi]
      by_cases hvtp : volume_to_pump m vol ≠ 0
      · rw [if_pos hvtp]
      · rw [if_neg hvtp]
        push_neg at hvtp
        rw [hvtp]
        by_contra hne
        have := hpar 0 hjlen hne
        omega
    · rw [if_neg (by omega : ¬(i % 2 = 0)), if_neg (by omega : ¬(i % 2 = 0))]
  | j + 1 =>
    have hj : j < ps.length - 1 := by
      have : j + 1 < ps.length := hjlen
      omega
    have hrhs : ((if i % 2 = 0 then volume_to_pump m vol else 0) ::
        ps.dropLast).get ⟨j + 1, h2⟩ = ps.getD j 0 := by
      simp only [List.get_cons_succ]
      rw [List.getD_eq_getElem _ _ (by omega : j < ps.length)]
      simp [List.getElem_dropLast]
    rw [hrhs]
    unfold beat_pump
    rw [if_neg (by omega : ¬(j + 1 = 0))]
    by_cases hx : Bool.xor (i % 2 == 1) ((j + 1) % 2 == 1) = true
    · rw [if_pos hx]
      rw [xor_mod_two] at hx
      by_contra hne
      have := hpar j (by omega) (Ne.symm hne)
      omega
    · rw [if_neg hx]
      simp only [Nat.add_sub_cancel]
      by_cases hprev : ps.getD j 0 ≠ 0
      · rw [if_pos hprev]
      · rw [if_neg hprev]
        push_neg at hprev
        rw [hprev]
        by_contra hne
        have := hpar (j + 1) hjlen hne
        rw [xor_mod_two] at hx
        omega

/-- Under the invariant, what beat i dispenses is exactly the last stage's
pre-beat volume (possibly zero). -/
theorem beat_dispensed_eq_last (i : ℕ) (ps : List ℚ)
    (hlen : 2 ≤ ps.length) (hinv : BrigadeInv i vol ps) :
    beat_dispensed i ps = ps.getD (ps.length - 1) 0 := by
  obtain ⟨-, hpar⟩ := hinv
  unfold beat_dispensed
  by_cases hx : Bool.xor (i % 2 == 1) ((ps.length - 1) % 2 == 1) = true
  · rw [if_pos ⟨hlen, hx⟩]
  · rw [if_neg (by tauto)]
    by_contra hne
    have := hpar (ps.length - 1) (by omega) (Ne.symm hne)
    rw [xor_mod_two] at hx
    omega

/-- The checkerboard invariant is preserved by a beat. -/
theorem brigade_inv_step (m : ℚ) (i : ℕ) (vol : ℚ) (ps : List ℚ)
    (hm : 0 < m) (hlen : 1 ≤ ps.length) (hinv : BrigadeInv i vol ps) :
    BrigadeInv (i + 1) (beat_vol m i vol) (beat_pumps m i vol ps) := by
  obtain ⟨hvol, hpar⟩ := hinv
  constructor
  · unfold beat_vol volume_to_pump
    split_ifs <;> linarith
  · rw [beat_pumps_shift m i vol ps hlen ⟨hvol, hpar⟩]
    intro j hj hne
    match j with
    | 0 =>
      simp only [List.getD_cons_zero] at hne
      rcases Nat.mod_two_eq_zero_or_one i with hi | hi
      · omega
      · rw [if_neg (by omega : ¬(i % 2 = 0))] at hne
        exact absurd rfl hne
    | j + 1 =>
      simp only [List.getD_cons_succ] at hne
      have hjl : j < ps.length - 1 := by
        simp only [List.length_cons, List.length_dropLast] at hj
        omega
      have hget : ps.dropLast.getD j 0 = ps.getD j 0 := by
        rw [List.getD_eq_getElem _ _ (by simp [List.length_dropLast]; omega),
          List.getD_eq_getElem _ _ (by omega : j < ps.length)]
        exact List.getElem_dropLast ps j _
      rw [hget] at hne
      have := hpar j (by omega) hne
      omega

theorem slug_sum_cons (x : ℚ) (xs : List ℚ) :
    slug_sum (x :: xs) = (if x ≠ 0 then xs.length + 1 else 0) + slug_sum xs :=
  rfl

theorem countP_ne_cons (a : ℚ) (l : List ℚ) :
    (a :: l).countP (fun x => decide (x ≠ 0)) =
      l.countP (fun x => decide (x ≠ 0)) + (if a ≠ 0 then 1 else 0) := by
  rw [List.countP_cons]
  by_cases h : a = 0
  · simp [h]
  · simp [h]

/-- `slug_sum` over a list with its last element dropped: every remaining
slug weighs one hop less, and the last stage's slug is gone. -/
theorem slug_sum_dropLast (ps : List ℚ) :
    slug_sum ps = slug_sum ps.dropLast +
      ps.countP (fun x => decide (x ≠ 0)) := by
  induction ps with
  | nil => rfl
  | cons x xs ih =>
    match xs with
    | [] =>
      rw [show ([x] : List ℚ).dropLast = [] from rfl, countP_ne_cons,
        List.countP_nil, slug_sum_cons]
      by_cases hx : x ≠ 0 <;> simp [hx, slug_sum]
    | y :: ys =>
      rw [show (x :: y :: ys).dropLast = x :: (y :: ys).dropLast from rfl,
        slug_sum_cons x (y :: ys), slug_sum_cons x ((y :: ys).dropLast),
        countP_ne_cons, ih]
      have hlen : (y :: ys).dropLast.length + 1 = (y :: ys).length := by
        simp [List.length_dropLast]
      by_cases hx : x ≠ 0
      · rw [if_pos hx, if_pos hx, if_pos hx]
        omega
      · rw [if_neg hx, if_neg hx, if_neg hx]
        omega

/-- A nonzero entry makes the truthiness count positive. -/
theorem countP_pos_of_busy {ps : List ℚ}
    (h : ∃ x ∈ ps, x ≠ 0) :
    1 ≤ ps.countP (fun x => decide (x ≠ 0)) := by
  rcases h with ⟨x, hx, hxne⟩
  exact List.countP_pos.2 ⟨x, hx, by simpa using hxne⟩

/-- The slug weights dominate the count. -/
theorem countP_le_slug_sum (ps : List ℚ) :
    ps.countP (fun x => decide (x ≠ 0)) ≤ slug_sum ps := by
  induction ps with
  | nil => simp [slug_sum]
  | cons x xs ih =>
    rw [countP_ne_cons, slug_sum_cons]
    by_cases hx : x ≠ 0
    · rw [if_pos hx, if_pos hx]
      omega
    · rw [if_neg hx, if_neg hx]
      omega

/-- When the loop is not busy, nothing is in flight. -/
theorem brigade_busy_eq_false_iff (vol : ℚ) (ps : List ℚ) :
    brigade_busy vol ps = false ↔ (∀ x ∈ ps, x = 0) ∧ vol = 0 := by
  simp [brigade_busy]

/-- A non-busy state stays non-busy through a beat (with a positive
smallest syringe, stage 0 aspirates nothing from an empty source). -/
theorem beat_not_busy {m : ℚ} {i : ℕ} {vol : ℚ} {ps : List ℚ}
    (hm : 0 < m) (h : brigade_busy vol ps = false) :
    brigade_busy (beat_vol m i vol) (beat_pumps m i vol ps) = false := by
  rw [brigade_busy_eq_false_iff] at h ⊢
  obtain ⟨hps, hvol⟩ := h
  subst hvol
  have hvtp : volume_to_pump m 0 = 0 := by
    unfold volume_to_pump
    rw [if_neg (by linarith)]
  have hgetD := getD_eq_zero_of_all_zero hps
  constructor
  · intro x hx
    unfold beat_pumps at hx
    rcases List.mem_map.1 hx with ⟨j, _, rfl⟩
    unfold beat_pump
    split_ifs with hj hi hv hx2 hp
    · exact absurd hvtp hv
    · exact hgetD 0
    · rfl
    · rfl
    · exact absurd (hgetD _) hp
    · exact hgetD _
  · unfold beat_vol
    split_ifs <;> simp [hvtp]

/-- One aspiration strictly lowers the count of remaining aspirations. -/
theorem ceil_toNat_decrease {m vol : ℚ} (hm : 0 < m) (hv : 0 < vol) :
    (⌈(vol - volume_to_pump m vol) / m⌉).toNat + 1 ≤ (⌈vol / m⌉).toNat := by
  unfold volume_to_pump
  split_ifs with h
  · have hdiv : (vol - m) / m = vol / m - 1 := by field_simp
    have hceil : ⌈(vol - m) / m⌉ = ⌈vol / m⌉ - 1 := by
      rw [hdiv]
      exact_mod_cast Int.ceil_sub_int (vol / m) 1
    have h2 : (2 : ℤ) ≤ ⌈vol / m⌉ := by
      have h1q : (1 : ℚ) < vol / m := (one_lt_div hm).2 h
      have h3 : (1 : ℤ) < ⌈vol / m⌉ := by
        rw [Int.lt_ceil]; exact_mod_cast h1q
      omega
    rw [hceil]
    omega
  · rw [sub_self, zero_div]
    have h1 : (1 : ℤ) ≤ ⌈vol / m⌉ := by
      rw [Int.le_ceil_iff]
      simpa using div_pos hv hm
    simp only [Int.ceil_zero, Int.toNat_zero, zero_add]
    omega

/-- Every busy beat strictly decreases the termination measure. -/
theorem brigade_measure_decrease (m : ℚ) (i : ℕ) (vol : ℚ) (ps : List ℚ)
    (hm : 0 < m) (hlen : 1 ≤ ps.length) (hinv : BrigadeInv i vol ps)
    (hbusy : brigade_busy vol ps = true) :
    brigade_measure m (i + 1) (beat_vol m i vol) (beat_pumps m i vol ps) + 1 ≤
      brigade_measure m i vol ps := by
  have hshift := beat_pumps_shift m i vol ps hlen hinv
  obtain ⟨hvol0, hpar⟩ := hinv
  have hS := slug_sum_dropLast ps
  have hCS := countP_le_slug_sum ps
  unfold brigade_measure
  rw [hshift, slug_sum_cons]
  have hlencons : ((if i % 2 = 0 then volume_to_pump m vol else 0) ::
      ps.dropLast).length = ps.length := by
    simp only [List.length_cons, List.length_dropLast]
    omega
  rw [hlencons]
  have hdll : ps.dropLast.length + 1 = ps.length := by
    simp only [List.length_dropLast]
    omega
  rcases eq_or_lt_of_le hvol0 with hveq | hvpos
  · -- the source is exhausted: a loaded stage must exist, and the beat
    -- advances every slug one hop
    rw [← hveq] at hbusy ⊢
    have hvtp0 : volume_to_pump m 0 = 0 := by
      unfold volume_to_pump
      rw [if_neg (by linarith)]
    have hC1 : 1 ≤ ps.countP (fun x => decide (x ≠ 0)) := by
      apply countP_pos_of_busy
      have hb := hbusy
      simp only [brigade_busy, Bool.or_eq_true, List.any_eq_true,
        decide_eq_true_eq] at hb
      rcases hb with h | h
      · exact h
      · exact absurd rfl h
    have hbv : beat_vol m i 0 = 0 := by
      unfold beat_vol
      split_ifs <;> simp [hvtp0]
    rw [hbv]
    have hhead : (if i % 2 = 0 then volume_to_pump m 0 else 0) = 0 := by
      rw [hvtp0, ite_self]
    rw [hhead]
    rw [if_neg (by simp : ¬(0 : ℚ) ≠ 0)]
    simp only [zero_div, Int.ceil_zero, Int.toNat_zero, Nat.mul_zero,
      lt_self_iff_false, and_false, if_false]
    omega
  · -- fluid remains in the source
    rcases Nat.mod_two_eq_zero_or_one i with hi | hi
    · -- even beat: stage 0 aspirates a positive slug and the count of
      -- remaining aspirations drops
      have hvtp_pos : 0 < volume_to_pump m vol := by
        unfold volume_to_pump
        split_ifs <;> linarith
      have hbv : beat_vol m i vol = vol - volume_to_pump m vol := by
        unfold beat_vol
        rw [if_pos hi]
      rw [hbv, if_pos hi, if_pos (by linarith : volume_to_pump m vol ≠ 0),
        hdll]
      have hA := ceil_toNat_decrease hm hvpos
      have hmul : 4 * ps.length *
            ((⌈(vol - volume_to_pump m vol) / m⌉).toNat + 1) ≤
          4 * ps.length * (⌈vol / m⌉).toNat :=
        Nat.mul_le_mul_left _ hA
      rw [Nat.mul_add, Nat.mul_one] at hmul
      have hp : (if i % 2 = 1 ∧ 0 < vol then 1 else 0) = 0 := by
        rw [if_neg (by omega : ¬(i % 2 = 1 ∧ 0 < vol))]
      rw [hp]
      have hp' : (if (i + 1) % 2 = 1 ∧ 0 < vol - volume_to_pump m vol
          then 1 else 0) ≤ 1 := by
        split_ifs <;> omega
      generalize 4 * ps.length * (⌈(vol - volume_to_pump m vol) / m⌉).toNat
          = X at hmul ⊢
      generalize 4 * ps.length * (⌈vol / m⌉).toNat = Y at hmul ⊢
      omega
    · -- odd beat: stage 0 empties, the slugs advance, the parity token is
      -- spent
      have hbv : beat_vol m i vol = vol := by
        unfold beat_vol
        rw [if_neg (by omega)]
      rw [hbv, if_neg (by omega : ¬(i % 2 = 0))]
      rw [if_neg (by simp : ¬(0 : ℚ) ≠ 0)]
      have hp : (if i % 2 = 1 ∧ 0 < vol then 1 else 0) = 1 := by
        rw [if_pos ⟨hi, hvpos⟩]
      have hp' : (if (i + 1) % 2 = 1 ∧ 0 < vol then 1 else 0) = 0 := by
        rw [if_neg (by omega : ¬((i + 1) % 2 = 1 ∧ 0 < vol))]
      rw [hp, hp']
      omega

theorem sum_dropLast_add_last (ps : List ℚ) (h : 1 ≤ ps.length) :
    ps.dropLast.sum + ps.getD (ps.length - 1) 0 = ps.sum := by
  have hne : ps ≠ [] := by
    intro heq
    rw [heq] at h
    simp at h
  conv_rhs => rw [← List.dropLast_append_getLast hne]
  rw [List.sum_append, List.sum_singleton]
  congr 1
  rw [List.getD_eq_getElem _ _ (by omega : ps.length - 1 < ps.length),
    List.getLast_eq_getElem]

/-- One beat conserves fluid: source + chain + dispensed is unchanged. -/
theorem brigade_beat_conserves (m : ℚ) (i : ℕ) (vol : ℚ) (ps : List ℚ)
    (hlen : 2 ≤ ps.length) (hinv : BrigadeInv i vol ps) :
    beat_vol m i vol + (beat_pumps m i vol ps).sum + beat_dispensed i ps =
      vol + ps.sum := by
  have hlen1 : 1 ≤ ps.length := by omega
  rw [beat_pumps_shift m i vol ps hlen1 hinv, List.sum_cons,
    beat_dispensed_eq_last i ps hlen hinv]
  have hsd := sum_dropLast_add_last ps hlen1
  unfold beat_vol
  rcases Nat.mod_two_eq_zero_or_one i with hi | hi
  · rw [if_pos hi, if_pos hi]
    linarith
  · rw [if_neg (by omega : ¬(i % 2 = 0)), if_neg (by omega : ¬(i % 2 = 0))]
    linarith

/-- The beat loop from an invariant state with at least two stages and
enough fuel terminates: it exits with an exhausted source and an empty
chain, having dispensed everything to the destination, within a number of
beats bounded by the measure. -/
theorem brigade_run_spec (m : ℚ) (hm : 0 < m) :
    ∀ (fuel i : ℕ) (vol : ℚ) (ps : List ℚ) (out : ℚ),
      BrigadeInv i vol ps → 2 ≤ ps.length →
      brigade_measure m i vol ps < fuel →
      ∃ n ps', brigade_run m fuel i vol ps out =
          some (n, 0, ps', out + vol + ps.sum) ∧
        ps' = List.replicate ps.length 0 ∧
        n ≤ i + brigade_measure m i vol ps + 1 := by
  intro fuel
  induction fuel with
  | zero =>
    intro i vol ps out _ _ hmeas
    omega
  | succ fuel ih =>
    intro i vol ps out hinv hlen hmeas
    have hlen1 : 1 ≤ ps.length := by omega
    have hinv' := brigade_inv_step m i vol ps hm hlen1 hinv
    have hsum := brigade_beat_conserves m i vol ps hlen hinv
    have hlen' : (beat_pumps m i vol ps).length = ps.length :=
      beat_pumps_length m i vol ps
    by_cases hbusy' :
      brigade_busy (beat_vol m i vol) (beat_pumps m i vol ps) = true
    · -- the loop continues: the pre-beat state must have been busy, so the
      -- measure dropped
      have hbusy : brigade_busy vol ps = true := by
        by_contra hb
        have hb' : brigade_busy vol ps = false := Bool.eq_false_iff.mpr hb
        have hnb := beat_not_busy (i := i) hm hb'
        rw [hnb] at hbusy'
        exact Bool.noConfusion hbusy'
      have hdec := brigade_measure_decrease m i vol ps hm hlen1 hinv hbusy
      obtain ⟨n, ps', hrun, hps', hn⟩ :=
        ih (i + 1) (beat_vol m i vol) (beat_pumps m i vol ps)
          (out + beat_dispensed i ps) hinv' (by omega) (by omega)
      have hout : out + beat_dispensed i ps + beat_vol m i vol +
          (beat_pumps m i vol ps).sum = out + vol + ps.sum := by
        linarith
      rw [hout] at hrun
      refine ⟨n, ps', ?_, ?_, ?_⟩
      · conv_lhs => rw [brigade_run]
        rw [if_pos hbusy']
        exact hrun
      · rw [hps', hlen']
      · omega
    · -- the loop breaks: nothing is in flight any more
      have hfalse : brigade_busy (beat_vol m i vol)
          (beat_pumps m i vol ps) = false := Bool.eq_false_iff.mpr hbusy'
      rw [brigade_busy_eq_false_iff] at hfalse
      obtain ⟨hzero, hvol'⟩ := hfalse
      have hps' : beat_pumps m i vol ps = List.replicate ps.length 0 :=
        List.eq_replicate.2 ⟨hlen', hzero⟩
      have hsum0 : (beat_pumps m i vol ps).sum = 0 := by
        rw [hps']
        simp
      have hout : out + beat_dispensed i ps = out + vol + ps.sum := by
        linarith
      refine ⟨i + 1, beat_pumps m i vol ps, ?_, hps', by omega⟩
      conv_lhs => rw [brigade_run]
      rw [if_neg hbusy', hvol', hout]

/-- Whenever the beat loop returns, it does so exactly because the `busy`
check failed: no source volume remains and no pump holds residual
volume. -/
theorem brigade_run_exit (m : ℚ) :
    ∀ (fuel i n : ℕ) (vol vol' out out' : ℚ) (ps ps' : List ℚ),
      brigade_run m fuel i vol ps out = some (n, vol', ps', out') →
      vol' = 0 ∧ ∀ x ∈ ps', x = 0 := by
  intro fuel
  induction fuel with
  | zero =>
    intro i n vol vol' out out' ps ps' h
    exact Option.noConfusion h
  | succ fuel ih =>
    intro i n vol vol' out out' ps ps' h
    rw [brigade_run] at h
    by_cases hb :
      brigade_busy (beat_vol m i vol) (beat_pumps m i vol ps) = true
    · rw [if_pos hb] at h
      exact ih _ _ _ _ _ _ _ _ h
    · rw [if_neg hb] at h
      have hfalse := Bool.eq_false_iff.mpr hb
      rw [brigade_busy_eq_false_iff] at hfalse
      simp only [Option.some.injEq, Prod.mk.injEq] at h
      obtain ⟨-, h2, h3, -⟩ := h
      subst h2
      subst h3
      exact ⟨hfalse.2, hfalse.1⟩

/-- `minimal_pump_volume` over a two-pump chain with positive capacities is
the smaller capacity. -/
theorem minimal_pump_volume_pair (c1 c2 : ℚ) (h1 : 0 < c1) (h2 : 0 < c2) :
    minimal_pump_volume [c1, c2] = some (min c1 c2) := by
  show (if c1 = 0 then some c2 else if c2 < c1 then some c2 else some c1) =
    some (min c1 c2)
  rw [if_neg (by linarith : ¬c1 = 0)]
  rcases lt_or_ge c2 c1 with h | h
  · rw [if_pos h, min_eq_right (le_of_lt h)]
  · rw [if_neg (not_lt.2 h), min_eq_left h]

/- ------------------------------------------------------------------ -/
/- Claim C1. -/

/-- C1: for every chain of N ≥ 2 valve/pump stages (positive smallest
syringe volume m) and nonnegative total volume, the beat loop of
`PumpExecutioner.move_multiple_valves`, started on an empty chain,
terminates after finitely many beats (bounded by the termination measure),
and when it exits, the source volume is exhausted and every pump in the
chain is empty, the destination having received the whole volume (first
conjunct); the loop exits exactly when no pump holds residual volume and no
source volume remains — whatever state it returns in satisfies the `busy`
check's negation (second conjunct); in particular for a 2-stage chain with
capacities c1, c2 > 0 (whose smallest-syringe computation yields
min c1 c2) and total volume v = c1 + c2, the loop terminates in a bounded
number of beats and the volumes dispensed by the last stage sum to exactly
c1 + c2 (third conjunct). -/
theorem C1_bucket_brigade_termination :
    (∀ (N : ℕ) (m vol : ℚ), 2 ≤ N → 0 < m → 0 ≤ vol →
      ∃ (fuel n : ℕ) (ps' : List ℚ),
        brigade_run m fuel 0 vol (List.replicate N 0) 0 =
          some (n, 0, ps', vol) ∧
        ps' = List.replicate N 0 ∧
        n ≤ brigade_measure m 0 vol (List.replicate N 0) + 1) ∧
    (∀ (fuel i n : ℕ) (m vol vol' out out' : ℚ) (ps ps' : List ℚ),
      brigade_run m fuel i vol ps out = some (n, vol', ps', out') →
      vol' = 0 ∧ ∀ x ∈ ps', x = 0) ∧
    (∀ c1 c2 : ℚ, 0 < c1 → 0 < c2 →
      minimal_pump_volume [c1, c2] = some (min c1 c2) ∧
      ∃ (fuel n : ℕ) (ps' : List ℚ),
        brigade_run (min c1 c2) fuel 0 (c1 + c2) (List.replicate 2 0) 0 =
          some (n, 0, ps', c1 + c2) ∧
        ps' = List.replicate 2 0 ∧
        n ≤ brigade_measure (min c1 c2) 0 (c1 + c2)
          (List.replicate 2 0) + 1) := by
  have hmain : ∀ (N : ℕ) (m vol : ℚ), 2 ≤ N → 0 < m → 0 ≤ vol →
      ∃ (fuel n : ℕ) (ps' : List ℚ),
        brigade_run m fuel 0 vol (List.replicate N 0) 0 =
          some (n, 0, ps', vol) ∧
        ps' = List.replicate N 0 ∧
        n ≤ brigade_measure m 0 vol (List.replicate N 0) + 1 := by
    intro N m vol hN hm hvol
    have hinv : BrigadeInv 0 vol (List.replicate N 0) := by
      refine ⟨hvol, fun j hj hne => ?_⟩
      exfalso
      apply hne
      rw [List.getD_eq_getElem _ _ hj]
      simp
    have hlen : 2 ≤ (List.replicate N (0 : ℚ)).length := by simpa using hN
    obtain ⟨n, ps', hrun, hps', hn⟩ := brigade_run_spec m hm
      (brigade_measure m 0 vol (List.replicate N 0) + 1) 0 vol
      (List.replicate N 0) 0 hinv hlen (by omega)
    have hs : (0 : ℚ) + vol + (List.replicate N (0 : ℚ)).sum = vol := by
      simp
    rw [hs] at hrun
    refine ⟨brigade_measure m 0 vol (List.replicate N 0) + 1, n, ps',
      hrun, ?_, by omega⟩
    rw [hps']
    simp
  refine ⟨hmain, fun fuel i n m vol vol' out out' ps ps' h =>
    brigade_run_exit m fuel i n vol vol' out out' ps ps' h, ?_⟩
  intro c1 c2 h1 h2
  exact ⟨minimal_pump_volume_pair c1 c2 h1 h2,
    hmain 2 (min c1 c2) (c1 + c2) le_rfl (lt_min h1 h2) (by linarith)⟩

/-- Witness for C1: a 2-stage chain with capacities 1 mL and 2 mL moving
3 mL. -/
theorem C1_bucket_brigade_termination_witness :
    minimal_pump_volume [1, 2] = some (min 1 2) ∧
    ∃ (fuel n : ℕ) (ps' : List ℚ),
      brigade_run (min 1 2) fuel 0 (1 + 2) (List.replicate 2 0) 0 =
        some (n, 0, ps', 1 + 2) ∧
      ps' = List.replicate 2 0 ∧
      n ≤ brigade_measure (min 1 2) 0 (1 + 2) (List.replicate 2 0) + 1 :=
  C1_bucket_brigade_termination.2.2 1 2 (by norm_num) (by norm_num)
